import Mathlib

/-!
Verification of the APL (Arcanea Prompt Language) character-definition parser,
validator, serializer and editor utilities found in
`packages/enterprise/src/core/EnterpriseManager.ts` (`APLParser`, `APLUtils`).

The TypeScript code is shallowly embedded here.  Strings are modelled as lists
of characters (`Str`), JavaScript objects as insertion-ordered association
lists, JavaScript numbers as rationals, with `Option ℚ` where `NaN` can occur
(`none` models `NaN`).  A thrown exception is modelled by `Option.none` of the
whole computation.  Hexadecimal/binary numeric literals and the `Infinity`
keyword accepted by JavaScript `Number`/`parseFloat` are not modelled: no
document in this development contains them.
-/

/-- Strings of the embedded program: plain lists of characters. -/
abbrev Str := List Char

/-- Coercion from Lean string literals to embedded strings. -/
def S (s : String) : Str := s.data

/-- Whitespace test used by the embedding of JavaScript `trim`. -/
def isWS (c : Char) : Bool := c = ' ' || c = '\t' || c = '\n' || c = '\r'

/-- Embedding of JavaScript `String.prototype.trim` (both ends). -/
def jsTrim (s : Str) : Str := ((s.dropWhile isWS).reverse.dropWhile isWS).reverse

/-- Left-only whitespace skipping, as JavaScript `parseFloat` does. -/
def ltrimWS (s : Str) : Str := s.dropWhile isWS

/-- Embedding of JavaScript `split(sep)` with a one-character separator.
`"".split(c)` yields `[""]`, and consecutive separators yield empty pieces,
exactly as in JavaScript. -/
def jsSplit (c : Char) : Str → List Str
  | [] => [[]]
  | x :: xs =>
    match jsSplit c xs with
    | [] => [[]]
    | h :: t => if x = c then [] :: h :: t else (x :: h) :: t

/-- Embedding of JavaScript `Array.prototype.join` with a one-character
separator. -/
def joinWith (c : Char) : List Str → Str
  | [] => []
  | [s] => s
  | s :: rest => s ++ c :: joinWith c rest

/-- Embedding of `Array.prototype.join` with a string separator. -/
def joinStr (sep : Str) : List Str → Str
  | [] => []
  | [s] => s
  | s :: rest => s ++ sep ++ joinStr sep rest

/-- Boolean test that `s` begins with `p` (JavaScript `startsWith`). -/
def strStarts : Str → Str → Bool
  | _, [] => true
  | [], _ :: _ => false
  | a :: s, b :: p => a = b && strStarts s p

/-- Boolean test that `s` ends with `p` (JavaScript `endsWith`). -/
def strEnds (s p : Str) : Bool := strStarts s.reverse p.reverse

/-- Boolean substring test (JavaScript `includes` with a string argument). -/
def strHas (sub : Str) : Str → Bool
  | [] => strStarts [] sub
  | a :: s => strStarts (a :: s) sub || strHas sub s

/-- Quote characters stripped by `APLParser.parseValue`. -/
def isQuote (c : Char) : Bool := c = '\x22' || c = '\x27'

/-- Drop one leading quote character if present. -/
def stripLQ : Str → Str
  | [] => []
  | c :: rest => if isQuote c then rest else c :: rest

/-- Drop one trailing quote character if present. -/
def stripRQ (s : Str) : Str :=
  match s.getLast? with
  | some c => if isQuote c then s.dropLast else s
  | none => []

/-- Embedding of `APLParser.parseValue`: the replacement
`value.replace(pattern, "")` removes at most one quote character at each end
of the string, and the result is then trimmed. -/
def parseValue (v : Str) : Str := jsTrim (stripRQ (stripLQ v))

/-- Numeric value of a decimal digit character. -/
def digitVal (c : Char) : Nat := c.toNat - 48

/-- Natural number denoted by a list of decimal digit characters. -/
def natOfDigits (ds : Str) : Nat := ds.foldl (fun n d => n * 10 + digitVal d) 0

/-- Read an optional sign, returning the sign as an integer and the rest. -/
def readSign : Str → Int × Str
  | '+' :: r => (1, r)
  | '-' :: r => (-1, r)
  | s => (1, s)

/-- Read a trailing decimal exponent the way JavaScript `parseFloat` does: an
`e` or `E`, an optional sign and at least one digit; anything else leaves the
exponent at zero (the invalid tail is ignored). -/
def readExp (s : Str) : Int :=
  match s with
  | 'e' :: r => readExpBody r
  | 'E' :: r => readExpBody r
  | _ => 0
where
  readExpBody (r : Str) : Int :=
    let (sg, r1) :=
      match r with
      | '+' :: t => ((1 : Int), t)
      | '-' :: t => ((-1 : Int), t)
      | t => ((1 : Int), t)
    let ds := r1.takeWhile Char.isDigit
    if ds.isEmpty then 0 else sg * (natOfDigits ds : Int)

/-- Rational value of a decimal literal with sign `sg`, integer digits `ip`,
fraction digits `fp` and decimal exponent `e`, built from integer arithmetic:
`sg * (ip.fp) * 10 ^ e`. -/
def decValue (sg : Int) (ip fp : Str) (e : Int) : ℚ :=
  let base : Int := sg * (Int.ofNat (natOfDigits ip * 10 ^ fp.length + natOfDigits fp))
  if 0 ≤ e then mkRat (base * Int.ofNat (10 ^ e.toNat)) (10 ^ fp.length)
  else mkRat base (10 ^ fp.length * 10 ^ (-e).toNat)

/-- Embedding of JavaScript `parseFloat` on decimal literals: skip leading
whitespace, read an optional sign, integer digits, an optional fraction and an
optional exponent, ignoring any trailing garbage.  `none` models `NaN`. -/
def parseFloatJS (s0 : Str) : Option ℚ :=
  let s1 := ltrimWS s0
  let (sg, s2) := readSign s1
  let ip := s2.takeWhile Char.isDigit
  let s3 := s2.dropWhile Char.isDigit
  let (fp, s4) :=
    match s3 with
    | '.' :: r => (r.takeWhile Char.isDigit, r.dropWhile Char.isDigit)
    | _ => ([], s3)
  if ip.isEmpty && fp.isEmpty then none
  else some (decValue sg ip fp (readExp s4))

/-- Embedding of JavaScript `Number(string)` on decimal literals: the whole
trimmed string must be a decimal literal (empty means `0`); `none` models
`NaN`. -/
def jsNumberStr (s0 : Str) : Option ℚ :=
  let s := jsTrim s0
  if s.isEmpty then some 0
  else
    let (sg, s2) := readSign s
    let ip := s2.takeWhile Char.isDigit
    let s3 := s2.dropWhile Char.isDigit
    let (fp, s4) :=
      match s3 with
      | '.' :: r => (r.takeWhile Char.isDigit, r.dropWhile Char.isDigit)
      | _ => ([], s3)
    if ip.isEmpty && fp.isEmpty then none
    else
      match s4 with
      | [] => some (decValue sg ip fp 0)
      | 'e' :: r => jsNumberExp sg ip fp r
      | 'E' :: r => jsNumberExp sg ip fp r
      | _ => none
where
  jsNumberExp (sg : Int) (ip fp : Str) (r : Str) : Option ℚ :=
    let (esg, r1) :=
      match r with
      | '+' :: t => ((1 : Int), t)
      | '-' :: t => ((-1 : Int), t)
      | t => ((1 : Int), t)
    let ds := r1.takeWhile Char.isDigit
    if ds.isEmpty || !(r1.dropWhile Char.isDigit).isEmpty then none
    else some (decValue sg ip fp (esg * Int.ofNat (natOfDigits ds)))

/-- Decimal digit characters of a natural number. -/
def natToStr (n : Nat) : Str := Nat.toDigits 10 n

/-- Decimal digits of the fraction `r / d` (with `r < d`), by long division
with fuel.  All numbers serialized in this development have short finite
decimal expansions, which makes this an exact model of JavaScript number
printing for them. -/
def fracDigits : Nat → Nat → Nat → Str
  | 0, _, _ => []
  | fuel + 1, r, d =>
    if r = 0 then []
    else Char.ofNat (48 + r * 10 / d) :: fracDigits fuel (r * 10 % d) d

/-- Embedding of JavaScript number-to-string conversion (template literals in
`characterToAPL`) for numbers with a finite decimal expansion. -/
def qToStr (q : ℚ) : Str :=
  let sg : Str := if q.num < 0 then S "-" else []
  let n : Nat := q.num.natAbs
  let d : Nat := q.den
  sg ++ natToStr (n / d) ++ (if n % d = 0 then [] else '.' :: fracDigits 40 (n % d) d)

/-- Values stored inside a parsed section object (`currentObject` in
`APLParser.parseAPL`): arrays of strings, booleans, numbers (guarded by the
`isNaN` test, hence never `NaN`), single-level nested string-to-string
objects, and plain strings. -/
inductive SVal : Type where
  | str : Str → SVal
  | num : ℚ → SVal
  | bool : Bool → SVal
  | arr : List Str → SVal
  | nest : List (Str × Str) → SVal
deriving DecidableEq

/-- Values of a top-level character field: strings (scalar directives),
numbers with possible `NaN` (`consciousness_level`), and committed or
synthesized section objects. -/
inductive JVal : Type where
  | str : Str → JVal
  | num : Option ℚ → JVal
  | obj : List (Str × SVal) → JVal
deriving DecidableEq

/-- JavaScript objects are modelled as insertion-ordered association lists. -/
abbrev Model := List (Str × JVal)

/-- Property write on a JavaScript object: replace in place if the key exists,
otherwise append at the end. -/
def setF {α : Type} : List (Str × α) → Str → α → List (Str × α)
  | [], k, v => [(k, v)]
  | (k0, v0) :: rest, k, v =>
    if k0 = k then (k, v) :: rest else (k0, v0) :: setF rest k v

/-- Property read on a JavaScript object. -/
def getF {α : Type} : List (Str × α) → Str → Option α
  | [], _ => none
  | (k0, v0) :: rest, k => if k0 = k then some v0 else getF rest k

/-- JavaScript truthiness of a top-level field value. -/
def JVal.truthy : JVal → Bool
  | .str s => !s.isEmpty
  | .num (some q) => q ≠ 0
  | .num none => false
  | .obj _ => true

/-- Truthiness of a possibly-absent field (`undefined` is falsy). -/
def truthyOpt : Option JVal → Bool
  | some v => v.truthy
  | none => false

/-- Embedding of `APLParser.parseArray`: drop the brackets, split on commas and
quote-strip every item. -/
def parseArray (v : Str) : List Str :=
  (jsSplit ',' ((v.drop 1).dropLast)).map parseValue

/-- Embedding of `APLParser.parseNestedObject`: drop the braces, split on
commas, split each pair on colons, and keep quote-stripped key/value pairs
whose raw key and raw value are both nonempty. -/
def parseNestedObject (v : Str) : List (Str × Str) :=
  let content := jsTrim ((v.drop 1).dropLast)
  if content.isEmpty then []
  else
    (jsSplit ',' content).foldl
      (fun o pair =>
        match (jsSplit ':' pair).map jsTrim with
        | k :: val :: _ =>
          if !k.isEmpty && !val.isEmpty then setF o (parseValue k) (parseValue val) else o
        | _ => o)
      []

/-- State of the line-oriented parser: the character object built so far, the
name of the currently open section if any, and its accumulator. -/
structure PState where
  ch : Model
  sec : Option Str
  acc : List (Str × SVal)

/-- Split a trimmed line into directive name and value, when the line starts
with `@` (the destructuring `[directive, ...valueParts]` in `parseAPL`). -/
def lineDirective (l : Str) : Option (Str × Str) :=
  if strStarts l (S "@") then
    let parts := jsSplit ' ' (l.drop 1)
    some (parts.headD [], joinWith ' ' parts.tail)
  else none

/-- Split a section body line into key and typed value, when it contains a
colon: the key is the trimmed text before the first colon, and the value is
classified in order as array, boolean, number, nested object, or string,
exactly as in `parseAPL`. -/
def parseSectionLine (l : Str) : Option (Str × SVal) :=
  if l.contains ':' then
    let parts := jsSplit ':' l
    let key := jsTrim (parts.headD [])
    let v := jsTrim (joinWith ':' parts.tail)
    let sval :=
      if strStarts v (S "[") && strEnds v (S "]") then SVal.arr (parseArray v)
      else if v = S "true" then SVal.bool true
      else if v = S "false" then SVal.bool false
      else
        match jsNumberStr v with
        | some q => SVal.num q
        | none =>
          if strStarts v (S "\x7b") then SVal.nest (parseNestedObject v)
          else SVal.str (parseValue v)
    some (key, sval)
  else none

/-- Dispatch of a directive line in `parseAPL`: the four scalar cases, then
the default case which either opens a section (value contains `{`) or stores
a plain scalar under the directive name. -/
def applyDirective (st : PState) (d v : Str) : PState :=
  if d = S "character" then
    { st with ch := setF st.ch (S "name") (JVal.str (parseValue v)) }
  else if d = S "archetype" then
    { st with ch := setF st.ch (S "archetype") (JVal.str (parseValue v)) }
  else if d = S "element" then
    { st with ch := setF st.ch (S "element") (JVal.str (parseValue v)) }
  else if d = S "consciousness_level" then
    { st with ch := setF st.ch (S "consciousness_level") (JVal.num (parseFloatJS (parseValue v))) }
  else if v.contains '\x7b' then
    { st with sec := some d, acc := [] }
  else
    { st with ch := setF st.ch d (JVal.str (parseValue v)) }

/-- Processing of one kept, trimmed logical line in `parseAPL`. -/
def processLine (st : PState) (l : Str) : PState :=
  match lineDirective l with
  | some (d, v) => applyDirective st d v
  | none =>
    if l = S "\x7d" then
      match st.sec with
      | some s => { ch := setF st.ch s (JVal.obj st.acc), sec := none, acc := [] }
      | none => st
    else
      match st.sec, parseSectionLine l with
      | some _, some (k, v) => { st with acc := setF st.acc k v }
      | _, _ => st

/-- Lexical splitter of `parseAPL`: split on newlines, trim every line, and
drop blank lines and comment lines starting with `#`. -/
def keepLine (l : Str) : Bool := !l.isEmpty && !strStarts l (S "#")

/-- Kept, trimmed logical lines of a list of raw lines. -/
def keptLines (ls : List Str) : List Str := (ls.map jsTrim).filter keepLine

/-- Run the parser state machine over the kept lines of a document given as a
list of raw lines. -/
def runLines (ls : List Str) : PState :=
  (keptLines ls).foldl processLine ⟨[], none, []⟩

/-- Raw (pre-validation) character model of a document given as raw lines.
An accumulator of a section left unclosed at end of input is discarded. -/
def rawModel (ls : List Str) : Model := (runLines ls).ch

/-- Static archetype registry entry (`CharacterArchetype`). -/
structure ArchDef where
  aname : Str
  element : Str
  traits : List Str
  powers : List Str
deriving DecidableEq

/-- Embedding of `APLParser.ARCHETYPE_DEFINITIONS`, in declaration order. -/
def archetypeRegistry : List (Str × ArchDef) :=
  [ (S "Creator",
     ⟨S "Creator", S "Fire",
      [S "innovative", S "passionate", S "visionary", S "ambitious"],
      [S "idea_generation", S "strategic_thinking", S "inspiration"]⟩),
    (S "Nurturer",
     ⟨S "Nurturer", S "Earth",
      [S "caring", S "patient", S "wise", S "protective"],
      [S "emotional_healing", S "growth_guidance", S "stability"]⟩),
    (S "Seductress",
     ⟨S "Seductress", S "Water",
      [S "charismatic", S "intuitive", S "transformative", S "flowing"],
      [S "emotional_intelligence", S "persuasion", S "adaptation"]⟩),
    (S "Conductor",
     ⟨S "Conductor", S "Air",
      [S "harmonious", S "rhythmic", S "expressive", S "connected"],
      [S "sonic_creation", S "emotional_resonance", S "group_harmony"]⟩),
    (S "Architect",
     ⟨S "Architect", S "Ether",
      [S "logical", S "systematic", S "builder", S "precise"],
      [S "system_design", S "pattern_recognition", S "structured_thinking"]⟩),
    (S "Transformer",
     ⟨S "Transformer", S "Void",
      [S "adaptable", S "dynamic", S "catalyst", S "mysterious"],
      [S "change_facilitation", S "perspective_shifting", S "breakthrough_creation"]⟩) ]

/-- Registry key used by `ARCHETYPE_DEFINITIONS[character.archetype]`.  The
`archetype` field is only ever assigned strings by the parser and the
validator; other shapes are unreachable and yield a missing key. -/
def archKeyOf : Option JVal → Str
  | some (.str s) => s
  | _ => []

/-- Coercion of a stored field value to a JavaScript number, as applied by
`Math.min`/`Math.max` to `character.consciousness_level` (`none` is `NaN`). -/
def numOfJVal : JVal → Option ℚ
  | .num j => j
  | .str s => jsNumberStr s
  | .obj _ => none

/-- Smaller of two rationals (JavaScript `Math.min` on numbers). -/
def minQ (a b : ℚ) : ℚ := if a ≤ b then a else b

/-- Larger of two rationals (JavaScript `Math.max` on numbers). -/
def maxQ (a b : ℚ) : ℚ := if a ≤ b then b else a

/-- Clamping `Math.max(0, Math.min(1, x))`, with `NaN` propagating. -/
def clampNum : Option ℚ → Option ℚ
  | some q => some (maxQ 0 (minQ 1 q))
  | none => none

/-- Default step 1 of `validateAndComplete`: placeholder name. -/
def vName (c : Model) : Model :=
  if truthyOpt (getF c (S "name")) then c
  else setF c (S "name") (JVal.str (S "Unnamed Character"))

/-- Default step 2 of `validateAndComplete`: archetype when falsy. -/
def vArch (c : Model) : Model :=
  if truthyOpt (getF c (S "archetype")) then c
  else setF c (S "archetype") (JVal.str (S "Creator"))

/-- Default step 3 of `validateAndComplete`: element when falsy. -/
def vElem (c : Model) : Model :=
  if truthyOpt (getF c (S "element")) then c
  else setF c (S "element") (JVal.str (S "Fire"))

/-- Number currently stored under `consciousness_level`. -/
def numOfField (c : Model) : Option ℚ :=
  match getF c (S "consciousness_level") with
  | some v => numOfJVal v
  | none => none

/-- Default and clamping steps 4 of `validateAndComplete`: assign `0.7` when
the field is undefined, then always clamp into `[0, 1]`. -/
def vCL (c : Model) : Model :=
  let c1 :=
    if (getF c (S "consciousness_level")).isSome then c
    else setF c (S "consciousness_level") (JVal.num (some (mkRat 7 10)))
  setF c1 (S "consciousness_level") (JVal.num (clampNum (numOfField c1)))

/-- Personality object synthesized from an archetype registry entry. -/
def personalityDefault (a : ArchDef) : List (Str × SVal) :=
  [ (S "traits", SVal.arr a.traits),
    (S "voice", SVal.str (S "neutral")),
    (S "knowledge_domains", SVal.arr [S "general"]),
    (S "emotional_range", SVal.str (S "balanced")) ]

/-- Default step 5 of `validateAndComplete`: synthesize a personality from the
archetype registry when the field is falsy.  Looking up an archetype missing
from the registry yields `undefined` in the TypeScript code, whose `.traits`
access throws a `TypeError`; `none` models that exception. -/
def vPers (c : Model) : Option Model :=
  if truthyOpt (getF c (S "personality")) then some c
  else
    match getF archetypeRegistry (archKeyOf (getF c (S "archetype"))) with
    | some a => some (setF c (S "personality") (JVal.obj (personalityDefault a)))
    | none => none

/-- Default memory object of `validateAndComplete`. -/
def memoryDefault : List (Str × SVal) :=
  [ (S "core_experiences", SVal.str (S "newly awakened consciousness")),
    (S "relationship_templates", SVal.str (S "open and curious")),
    (S "growth_pattern", SVal.str (S "learning through interaction")) ]

/-- Default conversation-patterns object of `validateAndComplete`. -/
def conversationDefault : List (Str × SVal) :=
  [ (S "greeting", SVal.str (S "Hello, I\x27m pleased to meet you.")),
    (S "question_response", SVal.str (S "thoughtful and helpful")),
    (S "farewell", SVal.str (S "Until we meet again.")) ]

/-- Default mystical-abilities object of `validateAndComplete`. -/
def mysticalDefault : List (Str × SVal) :=
  [ (S "consciousness_awareness", SVal.bool true),
    (S "empathic_resonance", SVal.str (S "moderate")),
    (S "wisdom_sharing", SVal.bool true) ]

/-- Default step 6 of `validateAndComplete`: memory. -/
def vMem (c : Model) : Model :=
  if truthyOpt (getF c (S "memory")) then c
  else setF c (S "memory") (JVal.obj memoryDefault)

/-- Default step 7 of `validateAndComplete`: conversation patterns. -/
def vConv (c : Model) : Model :=
  if truthyOpt (getF c (S "conversation_patterns")) then c
  else setF c (S "conversation_patterns") (JVal.obj conversationDefault)

/-- Default step 8 of `validateAndComplete`: mystical abilities. -/
def vMyst (c : Model) : Model :=
  if truthyOpt (getF c (S "mystical_abilities")) then c
  else setF c (S "mystical_abilities") (JVal.obj mysticalDefault)

/-- Embedding of `APLParser.validateAndComplete`: the defaulting steps in
program order; `none` models the `TypeError` thrown when the personality
default is synthesized for an archetype missing from the registry. -/
def validateAndComplete (c : Model) : Option Model :=
  (vPers (vCL (vElem (vArch (vName c))))).map (fun c => vMyst (vConv (vMem c)))

/-- Embedding of `APLParser.parseAPL` on a document given as raw lines. -/
def parseAPLLines (ls : List Str) : Option Model :=
  validateAndComplete (rawModel ls)

/-- Embedding of `APLParser.parseAPL` on a source string. -/
def parseAPL (src : Str) : Option Model :=
  parseAPLLines (jsSplit '\n' src)

/-- Entries of a section-valued field as read by `Object.entries` in
`characterToAPL`; the serializer is only applied to validated models, whose
section fields are objects. -/
def sectionEntries (c : Model) (k : Str) : List (Str × SVal) :=
  match getF c k with
  | some (.obj o) => o
  | _ => []

/-- String field content as interpolated by `characterToAPL`; validated
models store strings under `name`, `archetype` and `element`. -/
def strField (c : Model) (k : Str) : Str :=
  match getF c k with
  | some (.str s) => s
  | _ => S "undefined"

/-- Interpolation of `character.consciousness_level` into a template
literal. -/
def clField (c : Model) : Str :=
  match getF c (S "consciousness_level") with
  | some (.num (some q)) => qToStr q
  | some (.num none) => S "NaN"
  | _ => S "undefined"

/-- Wrap a string in double quotes, as the template `"${value}"` does. -/
def quoted (s : Str) : Str := '\x22' :: (s ++ ['\x22'])

/-- Interpolation `${value}` of a section value into a template literal. -/
def svalToRaw : SVal → Str
  | .str s => s
  | .num q => qToStr q
  | .bool b => if b then S "true" else S "false"
  | .arr xs => joinWith ',' xs
  | .nest _ => S "[object Object]"

/-- Rendering of one personality entry by `characterToAPL`: arrays become
bracketed comma-separated quoted items, strings are quoted, and any other
value is interpolated raw. -/
def persEntry (p : Str × SVal) : Str :=
  S "\n  " ++ p.1 ++ S ": " ++
  (match p.2 with
   | .arr xs => '[' :: (joinStr (S ", ") (xs.map quoted) ++ [']'])
   | .str s => quoted s
   | v => svalToRaw v)

/-- Rendering of one memory or conversation-patterns entry: always quoted. -/
def quotedEntry (p : Str × SVal) : Str :=
  S "  " ++ p.1 ++ S ": " ++ quoted (svalToRaw p.2) ++ S "\n"

/-- Rendering of one mystical-abilities entry: strings quoted, other values
raw. -/
def mystEntry (p : Str × SVal) : Str :=
  S "  " ++ p.1 ++ S ": " ++
  (match p.2 with
   | .str s => quoted s
   | v => svalToRaw v) ++ S "\n"

/-- Rendering of one voice-profile entry: nested objects become an indented
block of quoted sub-entries, other values are quoted. -/
def vpEntry (p : Str × SVal) : Str :=
  match p.2 with
  | .nest ps =>
    S "  " ++ p.1 ++ S ": \x7b\n" ++
    joinStr [] (ps.map (fun q => S "    " ++ q.1 ++ S ": " ++ quoted q.2 ++ S "\n")) ++
    S "  \x7d\n"
  | v => S "  " ++ p.1 ++ S ": " ++ quoted (svalToRaw v) ++ S "\n"

/-- Embedding of `APLParser.characterToAPL`: scalar directives, then the
personality, memory, conversation-patterns and mystical-abilities sections,
then the voice-profile section when the field is truthy. -/
def characterToAPL (c : Model) : Str :=
  S "@character \x22" ++ strField c (S "name") ++ S "\x22\n" ++
  S "@archetype " ++ strField c (S "archetype") ++ S "\n" ++
  S "@element " ++ strField c (S "element") ++ S "\n" ++
  S "@consciousness_level " ++ clField c ++ S "\n\n@personality \x7b" ++
  joinStr [] ((sectionEntries c (S "personality")).map persEntry) ++ S "\n\x7d\n" ++
  S "\n@memory \x7b\n" ++
  joinStr [] ((sectionEntries c (S "memory")).map quotedEntry) ++ S "\x7d\n" ++
  S "\n@conversation_patterns \x7b\n" ++
  joinStr [] ((sectionEntries c (S "conversation_patterns")).map quotedEntry) ++ S "\x7d\n" ++
  S "\n@mystical_abilities \x7b\n" ++
  joinStr [] ((sectionEntries c (S "mystical_abilities")).map mystEntry) ++ S "\x7d" ++
  (if truthyOpt (getF c (S "voice_profile")) then
    S "\n\n@voice_profile \x7b\n" ++
    joinStr [] ((sectionEntries c (S "voice_profile")).map vpEntry) ++ S "\x7d"
   else [])

/-- Error messages pushed by `APLUtils.validateSyntax`, as tagged values. -/
inductive VErr : Type where
  | unexpectedBrace : Nat → VErr
  | missingCharacter : VErr
  | missingArchetype : VErr
  | unclosedBraces : VErr
deriving DecidableEq

/-- Loop state of `validateSyntax`: the two directive flags, the signed brace
counter, and the error list accumulated so far. -/
structure VState where
  hasC : Bool
  hasA : Bool
  depth : Int
  errs : List VErr

/-- One iteration of the `validateSyntax` loop on the raw line with index
`i`: trim, skip blank and comment lines, update the directive flags, bump the
brace counter for lines containing `{` or `}`, and record an error when the
counter is negative after the update. -/
def vStep (i : Nat) (st : VState) (rawLine : Str) : VState :=
  let l := jsTrim rawLine
  if !keepLine l then st
  else
    let hasC := st.hasC || strStarts l (S "@character")
    let hasA := st.hasA || strStarts l (S "@archetype")
    let d1 := if l.contains '\x7b' then st.depth + 1 else st.depth
    let d2 := if l.contains '\x7d' then d1 - 1 else d1
    let errs := if d2 < 0 then st.errs ++ [VErr.unexpectedBrace (i + 1)] else st.errs
    ⟨hasC, hasA, d2, errs⟩

/-- Indexed iteration of the `validateSyntax` loop. -/
def vRun : Nat → VState → List Str → VState
  | _, st, [] => st
  | i, st, l :: ls => vRun (i + 1) (vStep i st l) ls

/-- Embedding of `APLUtils.validateSyntax`: run the loop on the raw lines,
then append the missing-directive errors and the unclosed-braces error in
program order, returning the validity flag and the ordered error list. -/
def validateSyntax (src : Str) : Bool × List VErr :=
  let st := vRun 0 ⟨false, false, 0, []⟩ (jsSplit '\n' src)
  let errs :=
    st.errs ++
    (if !st.hasC then [VErr.missingCharacter] else []) ++
    (if !st.hasA then [VErr.missingArchetype] else []) ++
    (if st.depth > 0 then [VErr.unclosedBraces] else [])
  (errs.isEmpty, errs)

/-- Directive names suggested by `APLUtils.getSuggestions`, in order. -/
def directivesList : List Str :=
  [ S "character", S "archetype", S "element", S "consciousness_level",
    S "personality", S "memory", S "conversation_patterns", S "mystical_abilities",
    S "voice_profile", S "relationship_dynamics" ]

/-- Archetype names, in the registry's declaration order (`Object.keys`). -/
def archetypeNames : List Str :=
  [S "Creator", S "Nurturer", S "Seductress", S "Conductor", S "Architect", S "Transformer"]

/-- Element names suggested for `@element` lines, in program order. -/
def elementNames : List Str :=
  [S "Fire", S "Water", S "Earth", S "Air", S "Ether", S "Void"]

/-- Text of the logical line containing the cursor, as computed by
`getSuggestions`: everything before the cursor, split on newlines, last
piece. -/
def currentLineAt (s : Str) (pos : Nat) : Str :=
  (jsSplit '\n' (s.take pos)).getLastD []

/-- Embedding of `APLUtils.getSuggestions`: directive-prefix completions for
lines starting with `@`, otherwise archetype names for lines containing
`@archetype`, otherwise element names for lines containing `@element`. -/
def getSuggestions (s : Str) (pos : Nat) : List Str :=
  let cur := currentLineAt s pos
  if strStarts cur (S "@") then
    (directivesList.filter (fun d => strStarts d (cur.drop 1))).map (fun d => '@' :: d)
  else if strHas (S "@archetype") cur then archetypeNames
  else if strHas (S "@element") cur then elementNames
  else []

/-- Scenario source document of the specification: the six-line Echo
character. -/
def echoSrc : Str :=
  S "@character \x22Echo\x22\n@archetype Creator\n@element Fire\n@consciousness_level 0.8\n@personality \x7b\n  traits: [curious, kind]\n\x7d"

/-- Validated model produced by parsing `echoSrc` (checked below). -/
def mEcho : Model :=
  [ (S "name", JVal.str (S "Echo")),
    (S "archetype", JVal.str (S "Creator")),
    (S "element", JVal.str (S "Fire")),
    (S "consciousness_level", JVal.num (some (mkRat 4 5))),
    (S "personality", JVal.obj [(S "traits", SVal.arr [S "curious", S "kind"])]),
    (S "memory", JVal.obj memoryDefault),
    (S "conversation_patterns", JVal.obj conversationDefault),
    (S "mystical_abilities", JVal.obj mysticalDefault) ]

/-- Model produced by reparsing the serialization of `mEcho` (checked below):
identical except that the second personality trait keeps a leading quote. -/
def mEchoRT : Model :=
  [ (S "name", JVal.str (S "Echo")),
    (S "archetype", JVal.str (S "Creator")),
    (S "element", JVal.str (S "Fire")),
    (S "consciousness_level", JVal.num (some (mkRat 4 5))),
    (S "personality", JVal.obj [(S "traits", SVal.arr [S "curious", S "\x22kind"])]),
    (S "memory", JVal.obj memoryDefault),
    (S "conversation_patterns", JVal.obj conversationDefault),
    (S "mystical_abilities", JVal.obj mysticalDefault) ]

/-- Document with an unknown archetype and element but a provided personality
section, so that validation completes without touching the registry. -/
def wizSrc : Str :=
  S "@archetype Wizard\n@element Metal\n@personality \x7b\nvoice: calm\n\x7d"

/-- Validated model produced by parsing `wizSrc` (checked below): the unknown
archetype and element survive validation unchanged. -/
def mWiz : Model :=
  [ (S "archetype", JVal.str (S "Wizard")),
    (S "element", JVal.str (S "Metal")),
    (S "personality", JVal.obj [(S "voice", SVal.str (S "calm"))]),
    (S "name", JVal.str (S "Unnamed Character")),
    (S "consciousness_level", JVal.num (some (mkRat 7 10))),
    (S "memory", JVal.obj memoryDefault),
    (S "conversation_patterns", JVal.obj conversationDefault),
    (S "mystical_abilities", JVal.obj mysticalDefault) ]

/-- Fully defaulted model: the result of parsing any document that sets no
field at all (checked below). -/
def mDefault : Model :=
  [ (S "name", JVal.str (S "Unnamed Character")),
    (S "archetype", JVal.str (S "Creator")),
    (S "element", JVal.str (S "Fire")),
    (S "consciousness_level", JVal.num (some (mkRat 7 10))),
    (S "personality", JVal.obj
      [ (S "traits", SVal.arr [S "innovative", S "passionate", S "visionary", S "ambitious"]),
        (S "voice", SVal.str (S "neutral")),
        (S "knowledge_domains", SVal.arr [S "general"]),
        (S "emotional_range", SVal.str (S "balanced")) ]),
    (S "memory", JVal.obj memoryDefault),
    (S "conversation_patterns", JVal.obj conversationDefault),
    (S "mystical_abilities", JVal.obj mysticalDefault) ]

/-- Net brace contribution of one kept line in `validateSyntax`. -/
def braceDelta (l : Str) : Int :=
  (if l.contains '\x7b' then 1 else 0) - (if l.contains '\x7d' then 1 else 0)

/-- Value of the brace-depth counter of `validateSyntax` after the loop has
processed the raw lines `ls`. -/
def depthOver (ls : List Str) : Int :=
  ((keptLines ls).map braceDelta).sum

/-- Accumulator contents produced by a run of section body lines (already
trimmed and kept), starting from `acc`. -/
def bodyAcc (ls : List Str) (acc : List (Str × SVal)) : List (Str × SVal) :=
  ls.foldl
    (fun a l =>
      match parseSectionLine l with
      | some (k, v) => setF a k v
      | none => a)
    acc

/-- Validated model produced by parsing `@name Bob\n@element Water` (checked
below): the unknown directive `@name` writes the `name` field and `@element`
writes the element, without any `@character` or `@archetype` line. -/
def mBob : Model :=
  [ (S "name", JVal.str (S "Bob")),
    (S "element", JVal.str (S "Water")),
    (S "archetype", JVal.str (S "Creator")),
    (S "consciousness_level", JVal.num (some (mkRat 7 10))),
    (S "personality", JVal.obj
      [ (S "traits", SVal.arr [S "innovative", S "passionate", S "visionary", S "ambitious"]),
        (S "voice", SVal.str (S "neutral")),
        (S "knowledge_domains", SVal.arr [S "general"]),
        (S "emotional_range", SVal.str (S "balanced")) ]),
    (S "memory", JVal.obj memoryDefault),
    (S "conversation_patterns", JVal.obj conversationDefault),
    (S "mystical_abilities", JVal.obj mysticalDefault) ]

/-- Value of the brace-depth counter just after the raw line with index `i`
of `src` has been processed. -/
def depthAfter (src : Str) (i : Nat) : Int :=
  depthOver ((jsSplit '\n' src).take (i + 1))

/-- Extensional equivalence of two field values: equality, except that section
objects are compared property read by property read, ignoring entry order (a
JavaScript object keeps the insertion position of each property). -/
def jvalEquiv : JVal → JVal → Prop
  | JVal.obj a, JVal.obj b => ∀ key : Str, getF a key = getF b key
  | x, y => x = y

/-- Lift of `jvalEquiv` to possibly-absent field values. -/
def optJvalEquiv : Option JVal → Option JVal → Prop
  | some x, some y => jvalEquiv x y
  | none, none => True
  | _, _ => False

/-- Lookup equivalence of two character models: every field read yields
equivalent values. -/
def modelEquiv (c1 c2 : Model) : Prop :=
  ∀ key : Str, optJvalEquiv (getF c1 key) (getF c2 key)

/-- Lookup equivalence of two parse results: both throw, or both succeed with
lookup-equivalent models. -/
inductive resultEquiv : Option Model → Option Model → Prop where
  | none : resultEquiv none none
  | some {a b : Model} : modelEquiv a b → resultEquiv (some a) (some b)

/-- Key written and value stored by a trimmed line that is a scalar directive
(one of the four named scalars, or an unknown directive whose value contains
no opening brace), mirroring the branch order of `applyDirective`. -/
def scalarWrite (l : Str) : Option (Str × JVal) :=
  match lineDirective l with
  | some (d, v) =>
    if d = S "character" then some (S "name", JVal.str (parseValue v))
    else if d = S "archetype" then some (S "archetype", JVal.str (parseValue v))
    else if d = S "element" then some (S "element", JVal.str (parseValue v))
    else if d = S "consciousness_level" then
      some (S "consciousness_level", JVal.num (parseFloatJS (parseValue v)))
    else if v.contains '\x7b' then none
    else some (d, JVal.str (parseValue v))
  | none => none

/-- Relation between two parser states that agree everywhere except possibly
at the character key `k`: field reads are equivalent away from `k`, the open
section is the same, and accumulator reads are equal. -/
def stRelEx (k : Str) (s1 s2 : PState) : Prop :=
  (∀ key : Str, key ≠ k → optJvalEquiv (getF s1.ch key) (getF s2.ch key)) ∧
  s1.sec = s2.sec ∧ (∀ key : Str, getF s1.acc key = getF s2.acc key)

/-- Validated model of a personality section listing `traits`, then `voice`,
then `traits` again (checked below): the last `traits` value wins, but the
key keeps its first insertion position, before `voice`. -/
def mOrd1 : Model :=
  [ (S "name", JVal.str (S "A")),
    (S "personality", JVal.obj
      [ (S "traits", SVal.arr [S "y"]), (S "voice", SVal.str (S "v")) ]),
    (S "archetype", JVal.str (S "Creator")),
    (S "element", JVal.str (S "Fire")),
    (S "consciousness_level", JVal.num (some (mkRat 7 10))),
    (S "memory", JVal.obj memoryDefault),
    (S "conversation_patterns", JVal.obj conversationDefault),
    (S "mystical_abilities", JVal.obj mysticalDefault) ]

/-- Validated model of the same section without the earlier `traits` line
(checked below): the same field values, but `voice` now precedes `traits`. -/
def mOrd2 : Model :=
  [ (S "name", JVal.str (S "A")),
    (S "personality", JVal.obj
      [ (S "voice", SVal.str (S "v")), (S "traits", SVal.arr [S "y"]) ]),
    (S "archetype", JVal.str (S "Creator")),
    (S "element", JVal.str (S "Fire")),
    (S "consciousness_level", JVal.num (some (mkRat 7 10))),
    (S "memory", JVal.obj memoryDefault),
    (S "conversation_patterns", JVal.obj conversationDefault),
    (S "mystical_abilities", JVal.obj mysticalDefault) ]

/-- Writing a key makes it readable. -/
theorem getF_setF_self {α : Type} (m : List (Str × α)) (k : Str) (v : α) :
    getF (setF m k v) k = some v := by
  induction m with
  | nil => simp [setF, getF]
  | cons p rest ih =>
    by_cases h : p.1 = k
    · simp [setF, getF, h]
    · simp [setF, getF, h, ih]

/-- Writing a key leaves other keys unchanged. -/
theorem getF_setF_ne {α : Type} (m : List (Str × α)) {k k' : Str} (v : α)
    (h : k' ≠ k) : getF (setF m k v) k' = getF m k' := by
  have hne : ¬ k = k' := fun hh => h hh.symm
  induction m with
  | nil => simp [setF, getF, hne]
  | cons p rest ih =>
    obtain ⟨k0, v0⟩ := p
    by_cases hp : k0 = k
    · subst hp
      simp [setF, getF, hne]
    · simp [setF, getF, hp, ih]

/-- Writing the same key twice keeps only the second write: the earlier value
leaves no trace in the object. -/
theorem setF_setF {α : Type} (m : List (Str × α)) (k : Str) (v v' : α) :
    setF (setF m k v) k v' = setF m k v' := by
  induction m with
  | nil => simp [setF]
  | cons p rest ih =>
    by_cases h : p.1 = k
    · simp [setF, h]
    · simp [setF, h, ih]

/-- The name-defaulting step touches no key but `name`. -/
theorem getF_vName_ne (c : Model) {k : Str} (h : k ≠ S "name") :
    getF (vName c) k = getF c k := by
  unfold vName
  split
  · rfl
  · exact getF_setF_ne c _ h

/-- The archetype-defaulting step touches no key but `archetype`. -/
theorem getF_vArch_ne (c : Model) {k : Str} (h : k ≠ S "archetype") :
    getF (vArch c) k = getF c k := by
  unfold vArch
  split
  · rfl
  · exact getF_setF_ne c _ h

/-- The element-defaulting step touches no key but `element`. -/
theorem getF_vElem_ne (c : Model) {k : Str} (h : k ≠ S "element") :
    getF (vElem c) k = getF c k := by
  unfold vElem
  split
  · rfl
  · exact getF_setF_ne c _ h

/-- The consciousness-level step touches no key but `consciousness_level`. -/
theorem getF_vCL_ne (c : Model) {k : Str} (h : k ≠ S "consciousness_level") :
    getF (vCL c) k = getF c k := by
  unfold vCL
  rw [getF_setF_ne _ _ h]
  split
  · rfl
  · exact getF_setF_ne c _ h

/-- After the consciousness-level step the field holds a clamped number. -/
theorem getF_vCL_self (c : Model) :
    ∃ j, getF (vCL c) (S "consciousness_level") = some (JVal.num (clampNum j)) := by
  unfold vCL
  exact ⟨_, getF_setF_self _ _ _⟩

/-- A successful personality step touches no key but `personality`. -/
theorem getF_vPers_ne {c c' : Model} {k : Str} (h : vPers c = some c')
    (hk : k ≠ S "personality") : getF c' k = getF c k := by
  unfold vPers at h
  split at h
  · cases h
    rfl
  · split at h
    · cases h
      exact getF_setF_ne c _ hk
    · cases h

/-- The memory-defaulting step touches no key but `memory`. -/
theorem getF_vMem_ne (c : Model) {k : Str} (h : k ≠ S "memory") :
    getF (vMem c) k = getF c k := by
  unfold vMem
  split
  · rfl
  · exact getF_setF_ne c _ h

/-- The conversation-patterns step touches no key but
`conversation_patterns`. -/
theorem getF_vConv_ne (c : Model) {k : Str} (h : k ≠ S "conversation_patterns") :
    getF (vConv c) k = getF c k := by
  unfold vConv
  split
  · rfl
  · exact getF_setF_ne c _ h

/-- The mystical-abilities step touches no key but `mystical_abilities`. -/
theorem getF_vMyst_ne (c : Model) {k : Str} (h : k ≠ S "mystical_abilities") :
    getF (vMyst c) k = getF c k := by
  unfold vMyst
  split
  · rfl
  · exact getF_setF_ne c _ h

/-- A successful validation decomposes into the personality step followed by
the three total defaulting steps. -/
theorem validate_decomp {c m : Model} (h : validateAndComplete c = some m) :
    ∃ c6, vPers (vCL (vElem (vArch (vName c)))) = some c6 ∧
      m = vMyst (vConv (vMem c6)) := by
  unfold validateAndComplete at h
  cases hv : vPers (vCL (vElem (vArch (vName c)))) with
  | none => rw [hv] at h; cases h
  | some c6 =>
    rw [hv] at h
    cases h
    exact ⟨c6, rfl, rfl⟩

/-- Clamped values lie in the unit interval. -/
theorem clampNum_bounds {j : Option ℚ} {q : ℚ} (h : clampNum j = some q) :
    0 ≤ q ∧ q ≤ 1 := by
  cases j with
  | none => cases h
  | some x =>
    have hq : maxQ 0 (minQ 1 x) = q := by
      simpa [clampNum] using h
    subst hq
    unfold maxQ minQ
    by_cases h1 : (1 : ℚ) ≤ x
    · simp [h1]
    · have hx1 : x ≤ 1 := le_of_not_le h1
      by_cases h0 : (0 : ℚ) ≤ x
      · simp [h1, h0, hx1]
      · simp [h1, h0]

set_option maxRecDepth 100000 in
/-- C1: the round-trip law fails on the code.  `mEcho` is a validated model
(it is the parse of `echoSrc`, first conjunct) with one level of nesting, yet
reparsing its serialization yields `mEchoRT`, whose second personality trait
is `"kind` with a leading quote: `parseValue` strips quotes before trimming,
so the space that `characterToAPL` emits after each comma defeats the
leading-quote strip.  All other fields round-trip. -/
theorem claim_C1 :
    parseAPL echoSrc = some mEcho ∧
    parseAPL (characterToAPL mEcho) = some mEchoRT ∧
    getF (sectionEntries mEchoRT (S "personality")) (S "traits")
      = some (SVal.arr [S "curious", S "\x22kind"]) ∧
    getF (sectionEntries mEcho (S "personality")) (S "traits")
      = some (SVal.arr [S "curious", S "kind"]) ∧
    mEchoRT ≠ mEcho := by
  exact ⟨by decide, by decide, by decide, by decide, by decide⟩

/-- C3: parsing throws on `@archetype Wizard`.  With an unknown archetype kept
by validation and no personality section, `validateAndComplete` reads
`ARCHETYPE_DEFINITIONS["Wizard"].traits`, a `TypeError` (`none` models the
exception), contradicting the claim that parsing never throws. -/
theorem claim_C3 : parseAPL (S "@archetype Wizard") = none := by decide

/-- C2 counterexample: the unknown archetype `Wizard` and unknown element
`Metal` survive validation unchanged; the claim says they are replaced by
`Creator` and `Fire`. -/
theorem claim_C2_cex :
    parseAPL wizSrc = some mWiz ∧
    getF mWiz (S "archetype") = some (JVal.str (S "Wizard")) ∧
    getF mWiz (S "element") = some (JVal.str (S "Metal")) ∧
    S "Wizard" ≠ S "Creator" ∧
    S "Metal" ≠ S "Fire" := by
  exact ⟨by decide, by decide, by decide, by decide, by decide⟩

/-- C5 counterexample: parsing the six-line Echo document yields a
personality object with no `voice` entry at all, while the claim says the
default voice value is filled in. -/
theorem claim_C5_cex :
    parseAPL echoSrc = some mEcho ∧
    getF (sectionEntries mEcho (S "personality")) (S "voice") = none := by
  exact ⟨by decide, by decide⟩

/-- C5 (amended): the six-line Echo document parses to name `Echo`, archetype
`Creator`, element `Fire`, consciousness level `0.8` and traits
`[curious, kind]`, but the provided personality section is stored as-is:
defaults are synthesized only when the whole section is absent, so there is
no `voice` entry. -/
theorem claim_C5 :
    parseAPL echoSrc = some mEcho ∧
    getF mEcho (S "name") = some (JVal.str (S "Echo")) ∧
    getF mEcho (S "archetype") = some (JVal.str (S "Creator")) ∧
    getF mEcho (S "element") = some (JVal.str (S "Fire")) ∧
    getF mEcho (S "consciousness_level") = some (JVal.num (some (mkRat 4 5))) ∧
    getF (sectionEntries mEcho (S "personality")) (S "traits")
      = some (SVal.arr [S "curious", S "kind"]) ∧
    getF (sectionEntries mEcho (S "personality")) (S "voice") = none := by
  exact ⟨by decide, by decide, by decide, by decide, by decide, by decide, by decide⟩

/-- C4: every validated consciousness level that is a number lies in `[0,1]`;
`-5` clamps to `0`, `5` and `1.5` clamp to `1`, and an absent directive
defaults to `0.7`. -/
theorem claim_C4 :
    (∀ (ls : List Str) (m : Model) (q : ℚ), parseAPLLines ls = some m →
      getF m (S "consciousness_level") = some (JVal.num (some q)) →
      0 ≤ q ∧ q ≤ 1) ∧
    (parseAPL (S "@consciousness_level -5")).bind
      (fun m => getF m (S "consciousness_level")) = some (JVal.num (some 0)) ∧
    (parseAPL (S "@consciousness_level 5")).bind
      (fun m => getF m (S "consciousness_level")) = some (JVal.num (some 1)) ∧
    (parseAPL (S "@consciousness_level 1.5")).bind
      (fun m => getF m (S "consciousness_level")) = some (JVal.num (some 1)) ∧
    (parseAPL (S "")).bind
      (fun m => getF m (S "consciousness_level")) = some (JVal.num (some (mkRat 7 10))) := by
  refine ⟨?_, by decide, by decide, by decide, by decide⟩
  intro ls m q h hq
  obtain ⟨c6, hp, hm⟩ := validate_decomp h
  subst hm
  obtain ⟨j, hj⟩ := getF_vCL_self (vElem (vArch (vName (rawModel ls))))
  have hc : getF (vMyst (vConv (vMem c6))) (S "consciousness_level")
      = some (JVal.num (clampNum j)) := by
    rw [getF_vMyst_ne _ (by decide), getF_vConv_ne _ (by decide),
        getF_vMem_ne _ (by decide), getF_vPers_ne hp (by decide)]
    exact hj
  rw [hc] at hq
  injection hq with h1
  injection h1 with h2
  exact clampNum_bounds h2

/-- C4 witness: instantiating the universal part at the Echo document, whose
consciousness level is `0.8`. -/
theorem claim_C4_witness : 0 ≤ mkRat 4 5 ∧ mkRat 4 5 ≤ 1 :=
  claim_C4.1 (jsSplit '\n' echoSrc) mEcho (mkRat 4 5) (by decide) (by decide)

/-- C2 (amended): validation assigns `Creator` and `Fire` only when the
parsed archetype or element is absent or empty (falsy); any nonempty parsed
value, recognized or not, is preserved unchanged in the validated model. -/
theorem claim_C2 (ls : List Str) (m : Model) (h : parseAPLLines ls = some m) :
    (truthyOpt (getF (rawModel ls) (S "archetype")) = false →
      getF m (S "archetype") = some (JVal.str (S "Creator"))) ∧
    (truthyOpt (getF (rawModel ls) (S "archetype")) = true →
      getF m (S "archetype") = getF (rawModel ls) (S "archetype")) ∧
    (truthyOpt (getF (rawModel ls) (S "element")) = false →
      getF m (S "element") = some (JVal.str (S "Fire"))) ∧
    (truthyOpt (getF (rawModel ls) (S "element")) = true →
      getF m (S "element") = getF (rawModel ls) (S "element")) := by
  obtain ⟨c6, hp, hm⟩ := validate_decomp h
  subst hm
  have harch : getF (vMyst (vConv (vMem c6))) (S "archetype")
      = getF (vArch (vName (rawModel ls))) (S "archetype") := by
    rw [getF_vMyst_ne _ (by decide), getF_vConv_ne _ (by decide),
        getF_vMem_ne _ (by decide), getF_vPers_ne hp (by decide),
        getF_vCL_ne _ (by decide), getF_vElem_ne _ (by decide)]
  have harch0 : getF (vName (rawModel ls)) (S "archetype")
      = getF (rawModel ls) (S "archetype") := getF_vName_ne _ (by decide)
  have helem : getF (vMyst (vConv (vMem c6))) (S "element")
      = getF (vElem (vArch (vName (rawModel ls)))) (S "element") := by
    rw [getF_vMyst_ne _ (by decide), getF_vConv_ne _ (by decide),
        getF_vMem_ne _ (by decide), getF_vPers_ne hp (by decide),
        getF_vCL_ne _ (by decide)]
  have helem0 : getF (vArch (vName (rawModel ls))) (S "element")
      = getF (rawModel ls) (S "element") := by
    rw [getF_vArch_ne _ (by decide), getF_vName_ne _ (by decide)]
  refine ⟨?_, ?_, ?_, ?_⟩
  · intro hf
    rw [harch]
    unfold vArch
    rw [harch0, hf]
    simp [getF_setF_self]
  · intro ht
    rw [harch]
    unfold vArch
    rw [harch0, ht]
    simpa using harch0
  · intro hf
    rw [helem]
    unfold vElem
    rw [helem0, hf]
    simp [getF_setF_self]
  · intro ht
    rw [helem]
    unfold vElem
    rw [helem0, ht]
    simpa using helem0

/-- C2 witness: the amended theorem applied to the Wizard/Metal document,
whose nonempty unknown archetype and element are preserved. -/
theorem claim_C2_witness :
    getF mWiz (S "archetype") = some (JVal.str (S "Wizard")) ∧
    getF mWiz (S "element") = some (JVal.str (S "Metal")) := by
  have h := claim_C2 (jsSplit '\n' wizSrc) mWiz (by decide)
  constructor
  · rw [h.2.1 (by decide)]
    decide
  · rw [h.2.2.2 (by decide)]
    decide

/-- C8 counterexample: the line `@archetype ` contains `@archetype`, yet the
suggestions are empty rather than the six archetype names: the
directive-prefix branch for lines starting with `@` shadows the archetype
branch. -/
theorem claim_C8_cex :
    strHas (S "@archetype") (currentLineAt (S "@archetype ") 11) = true ∧
    getSuggestions (S "@archetype ") 11 = [] ∧
    ([] : List Str) ≠ archetypeNames := by
  exact ⟨by decide, by decide, by decide⟩

/-- C8 (amended): the suggestion engine inspects only the line containing the
cursor; a line starting with `@` gets the directive names matching the typed
prefix (in particular `@arch` suggests exactly `@archetype`); a line not
starting with `@` but containing `@archetype` gets the six archetype names;
a line not starting with `@` and not containing `@archetype` but containing
`@element` gets the six element names. -/
theorem claim_C8 :
    (∀ (s : Str) (pos : Nat), strStarts (currentLineAt s pos) (S "@") = true →
      getSuggestions s pos =
        (directivesList.filter
          (fun d => strStarts d ((currentLineAt s pos).drop 1))).map (fun d => '@' :: d)) ∧
    (∀ (s : Str) (pos : Nat), strStarts (currentLineAt s pos) (S "@") = false →
      strHas (S "@archetype") (currentLineAt s pos) = true →
      getSuggestions s pos = archetypeNames) ∧
    (∀ (s : Str) (pos : Nat), strStarts (currentLineAt s pos) (S "@") = false →
      strHas (S "@archetype") (currentLineAt s pos) = false →
      strHas (S "@element") (currentLineAt s pos) = true →
      getSuggestions s pos = elementNames) ∧
    getSuggestions (S "@arch") 5 = [S "@archetype"] := by
  refine ⟨?_, ?_, ?_, by decide⟩
  · intro s pos h
    unfold getSuggestions
    simp [h]
  · intro s pos h ha
    unfold getSuggestions
    simp [h, ha]
  · intro s pos h ha he
    unfold getSuggestions
    simp [h, ha, he]

/-- C8 witness: the archetype branch applied to a line with a leading space,
which does not start with `@` but contains `@archetype`. -/
theorem claim_C8_witness : getSuggestions (S " @archetype") 11 = archetypeNames :=
  claim_C8.2.1 (S " @archetype") 11 (by decide) (by decide)

/-- Kept lines distribute over concatenation of documents. -/
theorem keptLines_append (a b : List Str) :
    keptLines (a ++ b) = keptLines a ++ keptLines b := by
  simp [keptLines]

/-- Kept lines of a cons cell. -/
theorem keptLines_cons (l : Str) (ls : List Str) :
    keptLines (l :: ls) =
      if keepLine (jsTrim l) then jsTrim l :: keptLines ls else keptLines ls := by
  simp only [keptLines, List.map_cons, List.filter_cons]

/-- A directive line survives the blank/comment filter: it starts with `@`. -/
theorem keepLine_of_directive {l : Str} {p : Str × Str}
    (h : lineDirective l = some p) : keepLine l = true := by
  unfold lineDirective at h
  by_cases hs : strStarts l (S "@") = true
  · cases l with
    | nil => simp [strStarts, S] at hs
    | cons a rest =>
      have ha : a = '@' := by
        simpa [strStarts, S] using hs
      subst ha
      simp [keepLine, strStarts, S]
  · simp [hs] at h

/-- A line recognized as a directive is processed by `applyDirective`. -/
theorem processLine_directive {l d v : Str} (st : PState)
    (h : lineDirective l = some (d, v)) :
    processLine st l = applyDirective st d v := by
  unfold processLine
  rw [h]

/-- The `character` directive stores the quote-stripped value under `name`. -/
theorem applyDirective_character (st : PState) (v : Str) :
    applyDirective st (S "character") v =
      { st with ch := setF st.ch (S "name") (JVal.str (parseValue v)) } := by
  unfold applyDirective
  rw [if_pos rfl]

/-- A non-scalar directive whose value contains `{` opens a fresh section. -/
theorem applyDirective_section (st : PState) {d : Str} (v : Str)
    (h1 : d ≠ S "character") (h2 : d ≠ S "archetype") (h3 : d ≠ S "element")
    (h4 : d ≠ S "consciousness_level") (hv : (v.contains '\x7b') = true) :
    applyDirective st d v = { st with sec := some d, acc := [] } := by
  unfold applyDirective
  rw [if_neg h1, if_neg h2, if_neg h3, if_neg h4, if_pos hv]

/-- A lone closing brace inside a section commits the accumulator. -/
theorem processLine_close (ch : Model) (s : Str) (acc : List (Str × SVal)) :
    processLine ⟨ch, some s, acc⟩ (S "\x7d") = ⟨setF ch s (JVal.obj acc), none, []⟩ := by
  have h : lineDirective (S "\x7d") = none := by decide
  unfold processLine
  rw [h]
  simp

/-- A non-directive, non-brace line with a recognized key/value pair only
updates the accumulator of an open section. -/
theorem processLine_body_some {l k : Str} {sv : SVal} (ch : Model) (s : Str)
    (acc : List (Str × SVal)) (hld : lineDirective l = none) (hne : l ≠ S "\x7d")
    (hps : parseSectionLine l = some (k, sv)) :
    processLine ⟨ch, some s, acc⟩ l = ⟨ch, some s, setF acc k sv⟩ := by
  unfold processLine
  rw [hld, if_neg hne, hps]

/-- A non-directive, non-brace line outside any section is ignored. -/
theorem processLine_body_none {l : Str} (st : PState)
    (hld : lineDirective l = none) (hne : l ≠ S "\x7d") (hsec : st.sec = none) :
    processLine st l = st := by
  unfold processLine
  rw [hld, if_neg hne, hsec]

/-- Running a sequence of kept body lines inside an open section leaves the
character object and the section name unchanged and folds the accumulator. -/
theorem foldl_body (ks : List Str)
    (h : ∀ l ∈ ks, lineDirective l = none ∧ l ≠ S "\x7d") :
    ∀ (ch : Model) (s : Str) (acc : List (Str × SVal)),
      ks.foldl processLine ⟨ch, some s, acc⟩ = ⟨ch, some s, bodyAcc ks acc⟩ := by
  induction ks with
  | nil => intro ch s acc; rfl
  | cons l ks ih =>
    intro ch s acc
    obtain ⟨hld, hne⟩ := h l (List.mem_cons_self l ks)
    have hrest : ∀ x ∈ ks, lineDirective x = none ∧ x ≠ S "\x7d" :=
      fun x hx => h x (List.mem_cons_of_mem l hx)
    rw [List.foldl_cons]
    cases hps : parseSectionLine l with
    | some p =>
      obtain ⟨k, sv⟩ := p
      rw [processLine_body_some ch s acc hld hne hps, ih hrest]
      simp [bodyAcc, hps]
    | none =>
      have hstep : processLine ⟨ch, some s, acc⟩ l = ⟨ch, some s, acc⟩ := by
        unfold processLine
        rw [hld, if_neg hne, hps]
      rw [hstep, ih hrest]
      simp [bodyAcc, hps]

/-- Every kept line is the trim of some raw line of the document. -/
theorem mem_keptLines {l : Str} {ls : List Str} (h : l ∈ keptLines ls) :
    ∃ b ∈ ls, jsTrim b = l := by
  unfold keptLines at h
  obtain ⟨hmem, _⟩ := List.mem_filter.mp h
  obtain ⟨b, hb, rfl⟩ := List.mem_map.mp hmem
  exact ⟨b, hb, rfl⟩

/-- C9 (amended): a section opened by the last directive and never closed
before end of input contributes nothing: the parse of the whole document
equals the parse of the document without the opener and its body, so the only
entries under the section name are those from earlier occurrences or from
default-filling, and parsing completes normally exactly when it does without
the section. -/
theorem claim_C9 (ls : List Str) (o : Str) (body : List Str) (d v : Str)
    (ho : lineDirective (jsTrim o) = some (d, v))
    (h1 : d ≠ S "character") (h2 : d ≠ S "archetype") (h3 : d ≠ S "element")
    (h4 : d ≠ S "consciousness_level") (hv : (v.contains '\x7b') = true)
    (hb : ∀ b ∈ body, lineDirective (jsTrim b) = none ∧ jsTrim b ≠ S "\x7d") :
    parseAPLLines (ls ++ o :: body) = parseAPLLines ls := by
  unfold parseAPLLines rawModel runLines
  congr 1
  have hko : keepLine (jsTrim o) = true := keepLine_of_directive ho
  rw [keptLines_append, keptLines_cons, if_pos hko, List.foldl_append, List.foldl_cons]
  rw [processLine_directive _ ho, applyDirective_section _ v h1 h2 h3 h4 hv]
  have hbk : ∀ l ∈ keptLines body, lineDirective l = none ∧ l ≠ S "\x7d" := by
    intro l hl
    obtain ⟨b, hbmem, rfl⟩ := mem_keptLines hl
    exact hb b hbmem
  rw [foldl_body _ hbk]

/-- C9 counterexample: an unclosed `@personality` section is discarded, but
the validated model still holds an entry under `personality` (the synthesized
default), while the claim says the model holds no entry under the unclosed
section name. -/
theorem claim_C9_cex :
    parseAPL (S "@personality \x7b\ntraits: [x") = some mDefault ∧
    getF mDefault (S "personality") ≠ none := by
  exact ⟨by decide, by decide⟩

/-- C9 witness: dropping a trailing unclosed personality section from a
one-character document does not change the parse. -/
theorem claim_C9_witness :
    parseAPLLines ([S "@character \x22Ann\x22"] ++ S "@personality \x7b" :: [S "traits: [x"]) =
      parseAPLLines [S "@character \x22Ann\x22"] := by
  refine claim_C9 [S "@character \x22Ann\x22"] (S "@personality \x7b") [S "traits: [x"]
    (S "personality") (S "\x7b") (by decide) (by decide) (by decide) (by decide)
    (by decide) (by decide) ?_
  intro b hbm
  simp only [List.mem_singleton] at hbm
  subst hbm
  exact ⟨by decide, by decide⟩


/-- Processing an opener line, a run of body lines and a closing brace
commits the body accumulator under the section name and continues with the
tail. -/
theorem foldl_section_block (body : List Str)
    (hbk : ∀ l ∈ body, lineDirective l = none ∧ l ≠ S "\x7d")
    {d v otrim : Str} (ho : lineDirective otrim = some (d, v))
    (hd1 : d ≠ S "character") (hd2 : d ≠ S "archetype") (hd3 : d ≠ S "element")
    (hd4 : d ≠ S "consciousness_level") (hv : (v.contains '\x7b') = true)
    (st : PState) (tail : List Str) :
    (otrim :: (body ++ S "\x7d" :: tail)).foldl processLine st
      = tail.foldl processLine ⟨setF st.ch d (JVal.obj (bodyAcc body [])), none, []⟩ := by
  rw [List.foldl_cons, processLine_directive _ ho,
      applyDirective_section _ v hd1 hd2 hd3 hd4 hv, List.foldl_append,
      foldl_body body hbk, List.foldl_cons, processLine_close]

/-- Blank and comment lines are skipped by the validator loop. -/
theorem vStep_skip {rawLine : Str} (i : Nat) (st : VState)
    (h : keepLine (jsTrim rawLine) = false) : vStep i st rawLine = st := by
  simp [vStep, h]

/-- One kept line updates the flags, adds the net brace delta, and records
an error when the counter became negative. -/
theorem vStep_keep {rawLine : Str} (i : Nat) (st : VState)
    (h : keepLine (jsTrim rawLine) = true) :
    vStep i st rawLine =
      ⟨st.hasC || strStarts (jsTrim rawLine) (S "@character"),
       st.hasA || strStarts (jsTrim rawLine) (S "@archetype"),
       st.depth + braceDelta (jsTrim rawLine),
       if st.depth + braceDelta (jsTrim rawLine) < 0 then
         st.errs ++ [VErr.unexpectedBrace (i + 1)]
       else st.errs⟩ := by
  have hd : (if List.contains (jsTrim rawLine) '\x7d' = true then
        (if List.contains (jsTrim rawLine) '\x7b' = true then st.depth + 1 else st.depth) - 1
      else if List.contains (jsTrim rawLine) '\x7b' = true then st.depth + 1 else st.depth)
      = st.depth + braceDelta (jsTrim rawLine) := by
    unfold braceDelta
    by_cases h1 : '\x7b' ∈ jsTrim rawLine <;>
      by_cases h2 : '\x7d' ∈ jsTrim rawLine <;>
        simp [h1, h2] <;> try omega
  simp only [vStep, h, Bool.not_true, Bool.false_eq_true, if_false]
  rw [hd]

/-- Depth of the empty document. -/
theorem depthOver_nil : depthOver [] = 0 := rfl

/-- Depth contribution of the first raw line. -/
theorem depthOver_cons (l : Str) (ls : List Str) :
    depthOver (l :: ls) =
      (if keepLine (jsTrim l) = true then braceDelta (jsTrim l) else 0) + depthOver ls := by
  simp only [depthOver, keptLines_cons]
  split <;> simp

/-- One validator step only appends unexpected-brace errors. -/
theorem vStep_errs (i : Nat) (st : VState) (l : Str) :
    ∃ e2, (vStep i st l).errs = st.errs ++ e2 ∧
      ∀ x ∈ e2, ∃ j, x = VErr.unexpectedBrace j := by
  by_cases h : keepLine (jsTrim l) = true
  · rw [vStep_keep i st h]
    by_cases hneg : st.depth + braceDelta (jsTrim l) < 0
    · exact ⟨[VErr.unexpectedBrace (i + 1)], by simp [hneg], by simp⟩
    · exact ⟨[], by simp [hneg], by simp⟩
  · rw [vStep_skip i st (by simpa using h)]
    exact ⟨[], by simp, by simp⟩

/-- Depth change of one validator step. -/
theorem vStep_depth (i : Nat) (st : VState) (l : Str) :
    (vStep i st l).depth =
      st.depth + (if keepLine (jsTrim l) = true then braceDelta (jsTrim l) else 0) := by
  by_cases h : keepLine (jsTrim l) = true
  · rw [vStep_keep i st h, if_pos h]
  · rw [vStep_skip i st (by simpa using h), if_neg h]
    omega

/-- The loop counter equals the initial depth plus the document depth. -/
theorem vRun_depth : ∀ (ls : List Str) (i : Nat) (st : VState),
    (vRun i st ls).depth = st.depth + depthOver ls := by
  intro ls
  induction ls with
  | nil => intro i st; simp [vRun, depthOver_nil]
  | cons l ls ih =>
    intro i st
    rw [vRun, ih, depthOver_cons, vStep_depth]
    omega

/-- The loop only appends errors, and only unexpected-brace ones. -/
theorem vRun_errs_mono : ∀ (ls : List Str) (i : Nat) (st : VState),
    ∃ extra, (vRun i st ls).errs = st.errs ++ extra ∧
      ∀ e ∈ extra, ∃ j, e = VErr.unexpectedBrace j := by
  intro ls
  induction ls with
  | nil => intro i st; exact ⟨[], by simp [vRun], by simp⟩
  | cons l ls ih =>
    intro i st
    rw [vRun]
    obtain ⟨e2, he2, h2all⟩ := vStep_errs i st l
    obtain ⟨extra, he, hall⟩ := ih (i + 1) (vStep i st l)
    refine ⟨e2 ++ extra, ?_, ?_⟩
    · rw [he, he2, List.append_assoc]
    · intro e hm
      rcases List.mem_append.mp hm with h1 | h1
      · exact h2all e h1
      · exact hall e h1

/-- Whenever the running depth is negative after a kept line, the loop has
recorded an unexpected-brace error for that line number. -/
theorem vRun_mem_neg : ∀ (ls : List Str) (i0 : Nat) (st : VState) (j : Nat)
    (hj : j < ls.length),
    keepLine (jsTrim (ls.get ⟨j, hj⟩)) = true →
    st.depth + depthOver (ls.take (j + 1)) < 0 →
    VErr.unexpectedBrace (i0 + j + 1) ∈ (vRun i0 st ls).errs := by
  intro ls
  induction ls with
  | nil => intro i0 st j hj; exact absurd hj (by simp)
  | cons l ls ih =>
    intro i0 st j hj hkept hneg
    rw [vRun]
    cases j with
    | zero =>
      simp only [List.get] at hkept
      rw [List.take_succ_cons, List.take_zero, depthOver_cons, depthOver_nil, if_pos hkept] at hneg
      obtain ⟨extra, he, _⟩ := vRun_errs_mono ls (i0 + 1) (vStep i0 st l)
      rw [he, vStep_keep i0 st hkept]
      have hneg2 : st.depth + braceDelta (jsTrim l) < 0 := by omega
      simp [hneg2]
    | succ j' =>
      have hj' : j' < ls.length := by simpa using hj
      have hkept' : keepLine (jsTrim (ls.get ⟨j', hj'⟩)) = true := by
        simpa using hkept
      have harith : (i0 + 1) + j' + 1 = i0 + (j' + 1) + 1 := by omega
      have hneg' : (vStep i0 st l).depth + depthOver (ls.take (j' + 1)) < 0 := by
        rw [List.take_succ_cons, depthOver_cons] at hneg
        rw [vStep_depth]
        omega
      have hmem := ih (i0 + 1) (vStep i0 st l) j' hj' hkept' hneg'
      rwa [harith] at hmem

/-- The summed brace deltas equal the difference of the per-line brace
counts. -/
theorem sum_braceDelta : ∀ (K : List Str),
    (K.map braceDelta).sum =
      ((K.countP (fun l => l.contains '\x7b') : Int) -
        (K.countP (fun l => l.contains '\x7d') : Int)) := by
  intro K
  induction K with
  | nil => simp
  | cons l K ih =>
    simp only [List.map_cons, List.sum_cons, List.countP_cons, ih]
    unfold braceDelta
    by_cases h1 : l.contains '\x7b' = true <;>
      by_cases h2 : l.contains '\x7d' = true <;>
        simp [h1, h2] <;> push_cast <;> try omega

/-- C6: `validateSyntax` reports the unclosed-braces error exactly when more
kept lines contain `{` than contain `}`; it reports an unexpected-brace error
with the line number of every kept line after which the running depth is
negative; and the returned validity flag is exactly the emptiness of the
ordered error list (the function is total, so it never throws). -/
theorem claim_C6 (src : Str) :
    (VErr.unclosedBraces ∈ (validateSyntax src).2 ↔
      (keptLines (jsSplit '\n' src)).countP (fun l => l.contains '\x7d') <
        (keptLines (jsSplit '\n' src)).countP (fun l => l.contains '\x7b')) ∧
    (∀ (j : Nat) (hj : j < (jsSplit '\n' src).length),
      keepLine (jsTrim ((jsSplit '\n' src).get ⟨j, hj⟩)) = true →
      depthAfter src j < 0 →
      VErr.unexpectedBrace (j + 1) ∈ (validateSyntax src).2) ∧
    (validateSyntax src).1 = (validateSyntax src).2.isEmpty := by
  obtain ⟨extra, he, hall⟩ := vRun_errs_mono (jsSplit '\n' src) 0 ⟨false, false, 0, []⟩
  have hdep := vRun_depth (jsSplit '\n' src) 0 ⟨false, false, 0, []⟩
  have hnotex : VErr.unclosedBraces ∉ extra := by
    intro hm
    obtain ⟨j, hj⟩ := hall _ hm
    cases hj
  have he2 : (vRun 0 ⟨false, false, 0, []⟩ (jsSplit '\n' src)).errs = extra := by
    simpa using he
  have hd2 : (vRun 0 ⟨false, false, 0, []⟩ (jsSplit '\n' src)).depth =
      depthOver (jsSplit '\n' src) := by
    simpa using hdep
  have hsum : depthOver (jsSplit '\n' src) =
      (((keptLines (jsSplit '\n' src)).countP (fun l => l.contains '\x7b') : Int) -
        ((keptLines (jsSplit '\n' src)).countP (fun l => l.contains '\x7d') : Int)) := by
    unfold depthOver
    exact sum_braceDelta _
  refine ⟨?_, ?_, ?_⟩
  · simp only [validateSyntax, he2, hd2]
    constructor
    · intro hmem
      rcases List.mem_append.mp hmem with h1 | h1
      · rcases List.mem_append.mp h1 with h2 | h2
        · rcases List.mem_append.mp h2 with h3 | h3
          · exact absurd h3 hnotex
          · split at h3 <;> simp_all
        · split at h2 <;> simp_all
      · split at h1
        · rename_i hpos
          rw [hsum] at hpos
          omega
        · simp_all
    · intro hcnt
      have hpos : depthOver (jsSplit '\n' src) > 0 := by
        rw [hsum]
        omega
      refine List.mem_append_right _ ?_
      rw [if_pos hpos]
      simp
  · intro j hj hkeep hneg
    have hmem := vRun_mem_neg (jsSplit '\n' src) 0 ⟨false, false, 0, []⟩ j hj hkeep
      (by simpa [depthAfter] using hneg)
    simp only [Nat.zero_add] at hmem
    simp only [validateSyntax]
    exact List.mem_append_left _ (List.mem_append_left _ (List.mem_append_left _ hmem))
  · simp only [validateSyntax]

/-- C6 witness: the document `}` gets an unexpected-brace error on line 1,
and the document `{{` triggers the unclosed-braces error via the count
criterion. -/
theorem claim_C6_witness :
    VErr.unexpectedBrace 1 ∈ (validateSyntax (S "\x7d")).2 ∧
    VErr.unclosedBraces ∈ (validateSyntax (S "\x7b\x7b")).2 := by
  constructor
  · exact (claim_C6 (S "\x7d")).2.1 0 (by decide) (by decide) (by decide)
  · exact (claim_C6 (S "\x7b\x7b")).1.mpr (by decide)

/-- Every string is a prefix of itself extended by anything. -/
theorem strStarts_append (p t : Str) : strStarts (p ++ t) p = true := by
  induction p with
  | nil => cases t <;> rfl
  | cons a p ih => simp [strStarts, ih]

/-- Splitting never yields an empty piece list. -/
theorem jsSplit_ne_nil (c : Char) (s : Str) : jsSplit c s ≠ [] := by
  cases s with
  | nil => simp [jsSplit]
  | cons x xs =>
    unfold jsSplit
    cases h : jsSplit c xs with
    | nil => simp
    | cons hh tt =>
      show (if x = c then [] :: hh :: tt else (x :: hh) :: tt) ≠ []
      split <;> simp

/-- The first piece of a split is a prefix of the string. -/
theorem jsSplit_head_decomp (c : Char) : ∀ (s : Str),
    ∃ t, s = (jsSplit c s).headD [] ++ t := by
  intro s
  induction s with
  | nil => exact ⟨[], rfl⟩
  | cons x xs ih =>
    unfold jsSplit
    cases h : jsSplit c xs with
    | nil => exact absurd h (jsSplit_ne_nil c xs)
    | cons hh tt =>
      show ∃ t, x :: xs = ((if x = c then [] :: hh :: tt else (x :: hh) :: tt).headD []) ++ t
      by_cases hx : x = c
      · rw [if_pos hx]
        simp only [List.headD_cons, List.nil_append]
        exact ⟨x :: xs, rfl⟩
      · rw [if_neg hx]
        simp only [List.headD_cons]
        obtain ⟨t, ht⟩ := ih
        rw [h] at ht
        simp only [List.headD_cons] at ht
        exact ⟨t, by rw [List.cons_append, ← ht]⟩

/-- A line recognized as a directive is `@`, the directive name, then the
rest. -/
theorem lineDirective_shape {l d v : Str} (h : lineDirective l = some (d, v)) :
    ∃ t, l = ('@' :: d) ++ t := by
  unfold lineDirective at h
  by_cases hs : strStarts l (S "@") = true
  · rw [if_pos hs] at h
    cases l with
    | nil => simp [strStarts, S] at hs
    | cons a l0 =>
      have ha : a = '@' := by simpa [strStarts, S] using hs
      subst ha
      simp only [List.drop_succ_cons, List.drop_zero, Option.some.injEq, Prod.mk.injEq] at h
      obtain ⟨hd, _⟩ := h
      obtain ⟨t, ht⟩ := jsSplit_head_decomp ' ' l0
      rw [hd] at ht
      exact ⟨t, by simp [ht]⟩
  · simp [hs] at h

/-- A line recognized as directive `d` starts with `@` followed by `d`. -/
theorem strStarts_directive {l d v : Str} (h : lineDirective l = some (d, v)) :
    strStarts l ('@' :: d) = true := by
  obtain ⟨t, ht⟩ := lineDirective_shape h
  subst ht
  exact strStarts_append ('@' :: d) t

/-- A directive other than `archetype` neither writes the `archetype` key nor
opens a section named `archetype`. -/
theorem applyDirective_arch_inv (st : PState) {d : Str} (v : Str)
    (hd : d ≠ S "archetype")
    (h1 : getF st.ch (S "archetype") = none) (h2 : st.sec ≠ some (S "archetype")) :
    getF (applyDirective st d v).ch (S "archetype") = none ∧
      (applyDirective st d v).sec ≠ some (S "archetype") := by
  unfold applyDirective
  split_ifs with hc he hcl hbr
  · refine ⟨?_, h2⟩
    show getF (setF st.ch (S "name") (JVal.str (parseValue v))) (S "archetype") = none
    rw [getF_setF_ne _ _ (by decide)]
    exact h1
  · refine ⟨?_, h2⟩
    show getF (setF st.ch (S "element") (JVal.str (parseValue v))) (S "archetype") = none
    rw [getF_setF_ne _ _ (by decide)]
    exact h1
  · refine ⟨?_, h2⟩
    show getF (setF st.ch (S "consciousness_level")
      (JVal.num (parseFloatJS (parseValue v)))) (S "archetype") = none
    rw [getF_setF_ne _ _ (by decide)]
    exact h1
  · refine ⟨h1, ?_⟩
    show some d ≠ some (S "archetype")
    simp [hd]
  · refine ⟨?_, h2⟩
    show getF (setF st.ch d (JVal.str (parseValue v))) (S "archetype") = none
    rw [getF_setF_ne _ _ (fun hh => hd hh.symm)]
    exact h1

/-- A line that does not start with `@archetype` preserves the absence of the
`archetype` key and never opens a section with that name. -/
theorem processLine_arch_inv (st : PState) (l : Str)
    (hl : strStarts l (S "@archetype") = false)
    (h1 : getF st.ch (S "archetype") = none) (h2 : st.sec ≠ some (S "archetype")) :
    getF (processLine st l).ch (S "archetype") = none ∧
      (processLine st l).sec ≠ some (S "archetype") := by
  cases hld : lineDirective l with
  | some p =>
    obtain ⟨d, v⟩ := p
    rw [processLine_directive st hld]
    have hd : d ≠ S "archetype" := by
      intro hh
      subst hh
      have htrue : strStarts l (S "@archetype") = true := strStarts_directive hld
      rw [hl] at htrue
      cases htrue
    exact applyDirective_arch_inv st v hd h1 h2
  | none =>
    unfold processLine
    rw [hld]
    by_cases hbr : l = S "\x7d"
    · rw [if_pos hbr]
      cases hsec : st.sec with
      | none => exact ⟨h1, h2⟩
      | some s =>
        have hsne : s ≠ S "archetype" := by
          intro hh
          subst hh
          exact h2 hsec
        refine ⟨?_, ?_⟩
        · show getF (setF st.ch s (JVal.obj st.acc)) (S "archetype") = none
          rw [getF_setF_ne _ _ (fun hh => hsne hh.symm)]
          exact h1
        · show (none : Option Str) ≠ some (S "archetype")
          simp
    · rw [if_neg hbr]
      cases hsec : st.sec with
      | none =>
        cases parseSectionLine l with
        | none => exact ⟨h1, h2⟩
        | some kv => exact ⟨h1, h2⟩
      | some s =>
        have hsne : s ≠ S "archetype" := by
          intro hh
          subst hh
          exact h2 hsec
        cases hps : parseSectionLine l with
        | none => exact ⟨h1, h2⟩
        | some kv =>
          obtain ⟨k, sv⟩ := kv
          refine ⟨h1, ?_⟩
          show (some s : Option Str) ≠ some (S "archetype")
          simp [hsne]

/-- The archetype-absence invariant is preserved by whole runs. -/
theorem fold_arch_inv (ks : List Str)
    (hk : ∀ l ∈ ks, strStarts l (S "@archetype") = false) :
    ∀ st : PState, getF st.ch (S "archetype") = none → st.sec ≠ some (S "archetype") →
      getF ((ks.foldl processLine st).ch) (S "archetype") = none ∧
        (ks.foldl processLine st).sec ≠ some (S "archetype") := by
  induction ks with
  | nil => intro st h1 h2; exact ⟨h1, h2⟩
  | cons l ks ih =>
    intro st h1 h2
    rw [List.foldl_cons]
    obtain ⟨h1', h2'⟩ := processLine_arch_inv st l (hk l (List.mem_cons_self l ks)) h1 h2
    exact ih (fun x hx => hk x (List.mem_cons_of_mem l hx)) _ h1' h2'

/-- A document no line of which starts with `@archetype` parses to a raw
model without an `archetype` entry. -/
theorem raw_arch_none (ls : List Str)
    (H : ∀ l ∈ ls, strStarts (jsTrim l) (S "@archetype") = false) :
    getF (rawModel ls) (S "archetype") = none := by
  unfold rawModel runLines
  refine (fold_arch_inv (keptLines ls) ?_ ⟨[], none, []⟩ rfl (by simp)).1
  intro l hl
  obtain ⟨b, hbmem, rfl⟩ := mem_keptLines hl
  exact H b hbmem

/-- The missing-directive flags stay unset when no line starts with
`@character` or `@archetype`. -/
theorem vRun_flags_false : ∀ (ls : List Str) (i : Nat) (st : VState),
    st.hasC = false → st.hasA = false →
    (∀ l ∈ ls, strStarts (jsTrim l) (S "@character") = false ∧
      strStarts (jsTrim l) (S "@archetype") = false) →
    (vRun i st ls).hasC = false ∧ (vRun i st ls).hasA = false := by
  intro ls
  induction ls with
  | nil => intro i st h1 h2 _; exact ⟨h1, h2⟩
  | cons l ls ih =>
    intro i st h1 h2 H
    rw [vRun]
    obtain ⟨hc, ha⟩ := H l (List.mem_cons_self l ls)
    have Hrest : ∀ x ∈ ls, strStarts (jsTrim x) (S "@character") = false ∧
        strStarts (jsTrim x) (S "@archetype") = false :=
      fun x hx => H x (List.mem_cons_of_mem l hx)
    by_cases hkeep : keepLine (jsTrim l) = true
    · refine ih (i + 1) _ ?_ ?_ Hrest
      · rw [vStep_keep i st hkeep]
        simp [h1, hc]
      · rw [vStep_keep i st hkeep]
        simp [h2, ha]
    · rw [vStep_skip i st (by simpa using hkeep)]
      exact ih (i + 1) st h1 h2 Hrest

/-- Validating a raw model without an archetype entry always succeeds and
assigns `Creator`; a falsy name becomes the placeholder and a falsy element
becomes `Fire`. -/
theorem validate_arch_none {c : Model} (hc : getF c (S "archetype") = none) :
    ∃ m, validateAndComplete c = some m ∧
      getF m (S "archetype") = some (JVal.str (S "Creator")) ∧
      (truthyOpt (getF c (S "name")) = false →
        getF m (S "name") = some (JVal.str (S "Unnamed Character"))) ∧
      (truthyOpt (getF c (S "element")) = false →
        getF m (S "element") = some (JVal.str (S "Fire"))) := by
  have h1 : getF (vName c) (S "archetype") = getF c (S "archetype") :=
    getF_vName_ne _ (by decide)
  have harch : vArch (vName c) = setF (vName c) (S "archetype") (JVal.str (S "Creator")) := by
    unfold vArch
    rw [h1, hc]
    simp [truthyOpt]
  have h2 : getF (vArch (vName c)) (S "archetype") = some (JVal.str (S "Creator")) := by
    rw [harch, getF_setF_self]
  have h3 : getF (vCL (vElem (vArch (vName c)))) (S "archetype")
      = some (JVal.str (S "Creator")) := by
    rw [getF_vCL_ne _ (by decide), getF_vElem_ne _ (by decide), h2]
  obtain ⟨c6, hp⟩ : ∃ c6, vPers (vCL (vElem (vArch (vName c)))) = some c6 := by
    by_cases ht : truthyOpt (getF (vCL (vElem (vArch (vName c)))) (S "personality")) = true
    · exact ⟨_, by unfold vPers; rw [if_pos ht]⟩
    · refine ⟨setF (vCL (vElem (vArch (vName c)))) (S "personality")
        (JVal.obj (personalityDefault ⟨S "Creator", S "Fire",
          [S "innovative", S "passionate", S "visionary", S "ambitious"],
          [S "idea_generation", S "strategic_thinking", S "inspiration"]⟩)), ?_⟩
      unfold vPers
      rw [if_neg (by simpa using ht), h3]
      rw [show getF archetypeRegistry (archKeyOf (some (JVal.str (S "Creator"))))
        = some ⟨S "Creator", S "Fire",
            [S "innovative", S "passionate", S "visionary", S "ambitious"],
            [S "idea_generation", S "strategic_thinking", S "inspiration"]⟩ from by decide]
  refine ⟨vMyst (vConv (vMem c6)), ?_, ?_, ?_, ?_⟩
  · unfold validateAndComplete
    rw [hp]
    rfl
  · rw [getF_vMyst_ne _ (by decide), getF_vConv_ne _ (by decide),
        getF_vMem_ne _ (by decide), getF_vPers_ne hp (by decide), h3]
  · intro hn
    have hname : vName c = setF c (S "name") (JVal.str (S "Unnamed Character")) := by
      unfold vName
      rw [hn]
      simp
    rw [getF_vMyst_ne _ (by decide), getF_vConv_ne _ (by decide),
        getF_vMem_ne _ (by decide), getF_vPers_ne hp (by decide),
        getF_vCL_ne _ (by decide), getF_vElem_ne _ (by decide), harch,
        getF_setF_ne _ _ (by decide), hname, getF_setF_self]
  · intro hel
    have he0 : getF (vArch (vName c)) (S "element") = getF c (S "element") := by
      rw [getF_vArch_ne _ (by decide), getF_vName_ne _ (by decide)]
    have helem : vElem (vArch (vName c))
        = setF (vArch (vName c)) (S "element") (JVal.str (S "Fire")) := by
      unfold vElem
      rw [he0, hel]
      simp
    rw [getF_vMyst_ne _ (by decide), getF_vConv_ne _ (by decide),
        getF_vMem_ne _ (by decide), getF_vPers_ne hp (by decide),
        getF_vCL_ne _ (by decide), helem, getF_setF_self]

/-- C7 (amended): on a document no line of which begins with `@character` or
`@archetype`, `validateSyntax` reports both missing-directive errors and
fails, while `parseAPL` still succeeds with archetype `Creator`; the name is
`Unnamed Character` and the element `Fire` provided the raw parse left those
fields absent or empty (unknown directives such as `@name`, or an `@element`
line, can still set them). -/
theorem claim_C7 (src : Str)
    (H : ∀ l ∈ jsSplit '\n' src,
      strStarts (jsTrim l) (S "@character") = false ∧
      strStarts (jsTrim l) (S "@archetype") = false) :
    VErr.missingCharacter ∈ (validateSyntax src).2 ∧
    VErr.missingArchetype ∈ (validateSyntax src).2 ∧
    (validateSyntax src).1 = false ∧
    ∃ m, parseAPL src = some m ∧
      getF m (S "archetype") = some (JVal.str (S "Creator")) ∧
      (truthyOpt (getF (rawModel (jsSplit '\n' src)) (S "name")) = false →
        getF m (S "name") = some (JVal.str (S "Unnamed Character"))) ∧
      (truthyOpt (getF (rawModel (jsSplit '\n' src)) (S "element")) = false →
        getF m (S "element") = some (JVal.str (S "Fire"))) := by
  obtain ⟨hfc, hfa⟩ := vRun_flags_false (jsSplit '\n' src) 0 ⟨false, false, 0, []⟩ rfl rfl H
  have hmc : VErr.missingCharacter ∈ (validateSyntax src).2 := by
    simp only [validateSyntax, hfc, hfa]
    simp
  have hma : VErr.missingArchetype ∈ (validateSyntax src).2 := by
    simp only [validateSyntax, hfc, hfa]
    simp
  refine ⟨hmc, hma, ?_, ?_⟩
  · have hne : (validateSyntax src).2 ≠ [] := List.ne_nil_of_mem hmc
    have hval : (validateSyntax src).1 = (validateSyntax src).2.isEmpty := by
      simp only [validateSyntax]
    rw [hval]
    cases hE : (validateSyntax src).2 with
    | nil => exact absurd hE hne
    | cons a t => rfl
  · have hc : getF (rawModel (jsSplit '\n' src)) (S "archetype") = none :=
      raw_arch_none _ (fun l hl => (H l hl).2)
    obtain ⟨m, hm, harch, hname, helem⟩ := validate_arch_none hc
    exact ⟨m, hm, harch, hname, helem⟩

/-- C7 counterexample: `@name Bob\n@element Water` has no `@character` or
`@archetype` line, yet the parsed model's name is `Bob` (the unknown
directive `@name` writes the `name` field) and its element is `Water`, while
the claim demands `Unnamed Character` and `Fire` for every such document. -/
theorem claim_C7_cex :
    (∀ l ∈ jsSplit '\n' (S "@name Bob\n@element Water"),
      strStarts (jsTrim l) (S "@character") = false ∧
      strStarts (jsTrim l) (S "@archetype") = false) ∧
    parseAPL (S "@name Bob\n@element Water") = some mBob ∧
    getF mBob (S "name") = some (JVal.str (S "Bob")) ∧
    getF mBob (S "element") = some (JVal.str (S "Water")) ∧
    S "Bob" ≠ S "Unnamed Character" ∧
    S "Water" ≠ S "Fire" := by
  exact ⟨by decide, by decide, by decide, by decide, by decide, by decide⟩

/-- C7 witness: the amended theorem applied to the empty document. -/
theorem claim_C7_witness :
    VErr.missingCharacter ∈ (validateSyntax (S "")).2 ∧
    VErr.missingArchetype ∈ (validateSyntax (S "")).2 ∧
    (validateSyntax (S "")).1 = false ∧
    ∃ m, parseAPL (S "") = some m ∧
      getF m (S "archetype") = some (JVal.str (S "Creator")) ∧
      (truthyOpt (getF (rawModel (jsSplit '\n' (S ""))) (S "name")) = false →
        getF m (S "name") = some (JVal.str (S "Unnamed Character"))) ∧
      (truthyOpt (getF (rawModel (jsSplit '\n' (S ""))) (S "element")) = false →
        getF m (S "element") = some (JVal.str (S "Fire"))) :=
  claim_C7 (S "") (by decide)

/-- Value equivalence is reflexive. -/
theorem jvalEquiv_refl (v : JVal) : jvalEquiv v v := by
  cases v with
  | str s => rfl
  | num q => rfl
  | obj o => exact fun key => rfl

/-- Equivalence of object values from pointwise equal reads. -/
theorem jvalEquiv_obj {a b : List (Str × SVal)} (h : ∀ key : Str, getF a key = getF b key) :
    jvalEquiv (JVal.obj a) (JVal.obj b) := h

/-- Optional value equivalence is reflexive. -/
theorem optJvalEquiv_refl (o : Option JVal) : optJvalEquiv o o := by
  cases o with
  | none => trivial
  | some v => exact jvalEquiv_refl v

/-- Result equivalence is reflexive. -/
theorem resultEquiv_refl (o : Option Model) : resultEquiv o o := by
  cases o with
  | none => exact resultEquiv.none
  | some m => exact resultEquiv.some (fun key => optJvalEquiv_refl _)

/-- Equivalent values have the same truthiness. -/
theorem jvalEquiv_truthy {x y : JVal} (h : jvalEquiv x y) : x.truthy = y.truthy := by
  cases x with
  | str a =>
    cases y with
    | str b => cases h; rfl
    | num b => cases h
    | obj b => cases h
  | num a =>
    cases y with
    | str b => cases h
    | num b => cases h; rfl
    | obj b => cases h
  | obj a =>
    cases y with
    | str b => cases h
    | num b => cases h
    | obj b => rfl

/-- Equivalent optional values have the same truthiness. -/
theorem optJvalEquiv_truthyOpt {o1 o2 : Option JVal} (h : optJvalEquiv o1 o2) :
    truthyOpt o1 = truthyOpt o2 := by
  cases o1 with
  | none =>
    cases o2 with
    | none => rfl
    | some y => exact h.elim
  | some x =>
    cases o2 with
    | none => exact h.elim
    | some y => exact jvalEquiv_truthy h

/-- Equivalent optional values are present together. -/
theorem optJvalEquiv_isSome {o1 o2 : Option JVal} (h : optJvalEquiv o1 o2) :
    o1.isSome = o2.isSome := by
  cases o1 with
  | none =>
    cases o2 with
    | none => rfl
    | some y => exact h.elim
  | some x =>
    cases o2 with
    | none => exact h.elim
    | some y => rfl

/-- Equivalent values coerce to the same number. -/
theorem jvalEquiv_numOf {x y : JVal} (h : jvalEquiv x y) : numOfJVal x = numOfJVal y := by
  cases x with
  | str a =>
    cases y with
    | str b => cases h; rfl
    | num b => cases h
    | obj b => cases h
  | num a =>
    cases y with
    | str b => cases h
    | num b => cases h; rfl
    | obj b => cases h
  | obj a =>
    cases y with
    | str b => cases h
    | num b => cases h
    | obj b => rfl

/-- Equivalent optional values give the same registry key. -/
theorem optJvalEquiv_archKey {o1 o2 : Option JVal} (h : optJvalEquiv o1 o2) :
    archKeyOf o1 = archKeyOf o2 := by
  cases o1 with
  | none =>
    cases o2 with
    | none => rfl
    | some y => exact h.elim
  | some x =>
    cases o2 with
    | none => exact h.elim
    | some y =>
      cases x with
      | str a =>
        cases y with
        | str b => cases h; rfl
        | num b => cases h
        | obj b => cases h
      | num a =>
        cases y with
        | str b => cases h
        | num b => cases h; rfl
        | obj b => cases h
      | obj a =>
        cases y with
        | str b => cases h
        | num b => cases h
        | obj b => rfl

/-- Writing the same key with equivalent values preserves read equivalence. -/
theorem optJvalEquiv_setF {c1 c2 : Model} (k0 : Str) {v w : JVal} (hv : jvalEquiv v w)
    (key : Str) (h : optJvalEquiv (getF c1 key) (getF c2 key)) :
    optJvalEquiv (getF (setF c1 k0 v) key) (getF (setF c2 k0 w) key) := by
  by_cases hk : key = k0
  · subst hk
    rw [getF_setF_self, getF_setF_self]
    exact hv
  · rw [getF_setF_ne _ _ hk, getF_setF_ne _ _ hk]
    exact h

/-- Writing the same key and value preserves pointwise equal reads. -/
theorem getF_setF_congr {α : Type} {a1 a2 : List (Str × α)} (k0 : Str) (v : α)
    (key : Str) (h : getF a1 key = getF a2 key) :
    getF (setF a1 k0 v) key = getF (setF a2 k0 v) key := by
  by_cases hk : key = k0
  · subst hk
    rw [getF_setF_self, getF_setF_self]
  · rw [getF_setF_ne _ _ hk, getF_setF_ne _ _ hk]
    exact h

/-- Writing the same key with equivalent values preserves model equivalence. -/
theorem modelEquiv_setF {c1 c2 : Model} (h : modelEquiv c1 c2) (k0 : Str) {v w : JVal}
    (hv : jvalEquiv v w) : modelEquiv (setF c1 k0 v) (setF c2 k0 w) :=
  fun key => optJvalEquiv_setF k0 hv key (h key)

/-- A falsiness-guarded defaulting step preserves model equivalence. -/
theorem modelEquiv_vdefault (k0 : Str) (dv : JVal) {c1 c2 : Model} (h : modelEquiv c1 c2) :
    modelEquiv (if truthyOpt (getF c1 k0) then c1 else setF c1 k0 dv)
               (if truthyOpt (getF c2 k0) then c2 else setF c2 k0 dv) := by
  rw [optJvalEquiv_truthyOpt (h k0)]
  split_ifs with hc
  · exact h
  · exact modelEquiv_setF h k0 (jvalEquiv_refl dv)

/-- The name-defaulting step preserves model equivalence. -/
theorem modelEquiv_vName {c1 c2 : Model} (h : modelEquiv c1 c2) :
    modelEquiv (vName c1) (vName c2) :=
  modelEquiv_vdefault (S "name") (JVal.str (S "Unnamed Character")) h

/-- The archetype-defaulting step preserves model equivalence. -/
theorem modelEquiv_vArch {c1 c2 : Model} (h : modelEquiv c1 c2) :
    modelEquiv (vArch c1) (vArch c2) :=
  modelEquiv_vdefault (S "archetype") (JVal.str (S "Creator")) h

/-- The element-defaulting step preserves model equivalence. -/
theorem modelEquiv_vElem {c1 c2 : Model} (h : modelEquiv c1 c2) :
    modelEquiv (vElem c1) (vElem c2) :=
  modelEquiv_vdefault (S "element") (JVal.str (S "Fire")) h

/-- The memory-defaulting step preserves model equivalence. -/
theorem modelEquiv_vMem {c1 c2 : Model} (h : modelEquiv c1 c2) :
    modelEquiv (vMem c1) (vMem c2) :=
  modelEquiv_vdefault (S "memory") (JVal.obj memoryDefault) h

/-- The conversation-patterns step preserves model equivalence. -/
theorem modelEquiv_vConv {c1 c2 : Model} (h : modelEquiv c1 c2) :
    modelEquiv (vConv c1) (vConv c2) :=
  modelEquiv_vdefault (S "conversation_patterns") (JVal.obj conversationDefault) h

/-- The mystical-abilities step preserves model equivalence. -/
theorem modelEquiv_vMyst {c1 c2 : Model} (h : modelEquiv c1 c2) :
    modelEquiv (vMyst c1) (vMyst c2) :=
  modelEquiv_vdefault (S "mystical_abilities") (JVal.obj mysticalDefault) h

/-- Equivalent models store the same consciousness-level number. -/
theorem modelEquiv_numOfField {c1 c2 : Model} (h : modelEquiv c1 c2) :
    numOfField c1 = numOfField c2 := by
  unfold numOfField
  have h2 := h (S "consciousness_level")
  cases hg1 : getF c1 (S "consciousness_level") with
  | none =>
    cases hg2 : getF c2 (S "consciousness_level") with
    | none => rfl
    | some y => rw [hg1, hg2] at h2; exact h2.elim
  | some x =>
    cases hg2 : getF c2 (S "consciousness_level") with
    | none => rw [hg1, hg2] at h2; exact h2.elim
    | some y =>
      rw [hg1, hg2] at h2
      exact jvalEquiv_numOf h2

/-- The consciousness-level step preserves model equivalence. -/
theorem modelEquiv_vCL {c1 c2 : Model} (h : modelEquiv c1 c2) :
    modelEquiv (vCL c1) (vCL c2) := by
  unfold vCL
  rw [optJvalEquiv_isSome (h (S "consciousness_level"))]
  split_ifs with hc
  · show modelEquiv
        (setF c1 (S "consciousness_level") (JVal.num (clampNum (numOfField c1))))
        (setF c2 (S "consciousness_level") (JVal.num (clampNum (numOfField c2))))
    rw [modelEquiv_numOfField h]
    exact modelEquiv_setF h _ (jvalEquiv_refl _)
  · have h2 : modelEquiv
        (setF c1 (S "consciousness_level") (JVal.num (some (mkRat 7 10))))
        (setF c2 (S "consciousness_level") (JVal.num (some (mkRat 7 10)))) :=
      modelEquiv_setF h _ (jvalEquiv_refl _)
    show modelEquiv
        (setF (setF c1 (S "consciousness_level") (JVal.num (some (mkRat 7 10))))
          (S "consciousness_level")
          (JVal.num (clampNum (numOfField
            (setF c1 (S "consciousness_level") (JVal.num (some (mkRat 7 10))))))))
        (setF (setF c2 (S "consciousness_level") (JVal.num (some (mkRat 7 10))))
          (S "consciousness_level")
          (JVal.num (clampNum (numOfField
            (setF c2 (S "consciousness_level") (JVal.num (some (mkRat 7 10))))))))
    rw [modelEquiv_numOfField h2]
    exact modelEquiv_setF h2 _ (jvalEquiv_refl _)

/-- The personality step preserves result equivalence. -/
theorem modelEquiv_vPers {c1 c2 : Model} (h : modelEquiv c1 c2) :
    resultEquiv (vPers c1) (vPers c2) := by
  unfold vPers
  rw [optJvalEquiv_truthyOpt (h (S "personality"))]
  split_ifs with hc
  · exact resultEquiv.some h
  · rw [optJvalEquiv_archKey (h (S "archetype"))]
    cases hr : getF archetypeRegistry (archKeyOf (getF c2 (S "archetype"))) with
    | none => exact resultEquiv.none
    | some a => exact resultEquiv.some (modelEquiv_setF h _ (jvalEquiv_refl _))

/-- Validation maps equivalent raw models to equivalent results. -/
theorem modelEquiv_validate {c1 c2 : Model} (h : modelEquiv c1 c2) :
    resultEquiv (validateAndComplete c1) (validateAndComplete c2) := by
  unfold validateAndComplete
  have h4 : modelEquiv (vCL (vElem (vArch (vName c1)))) (vCL (vElem (vArch (vName c2)))) :=
    modelEquiv_vCL (modelEquiv_vElem (modelEquiv_vArch (modelEquiv_vName h)))
  have h5 := modelEquiv_vPers h4
  cases hp1 : vPers (vCL (vElem (vArch (vName c1)))) with
  | none =>
    cases hp2 : vPers (vCL (vElem (vArch (vName c2)))) with
    | none => exact resultEquiv.none
    | some m2 => rw [hp1, hp2] at h5; cases h5
  | some m1 =>
    cases hp2 : vPers (vCL (vElem (vArch (vName c2)))) with
    | none => rw [hp1, hp2] at h5; cases h5
    | some m2 =>
      rw [hp1, hp2] at h5
      cases h5 with
      | some hm =>
        exact resultEquiv.some (modelEquiv_vMyst (modelEquiv_vConv (modelEquiv_vMem hm)))

/-- Unfolding of `scalarWrite` on a directive line. -/
theorem scalarWrite_eqn {l d v : Str} (hld : lineDirective l = some (d, v)) :
    scalarWrite l =
      (if d = S "character" then some (S "name", JVal.str (parseValue v))
       else if d = S "archetype" then some (S "archetype", JVal.str (parseValue v))
       else if d = S "element" then some (S "element", JVal.str (parseValue v))
       else if d = S "consciousness_level" then
         some (S "consciousness_level", JVal.num (parseFloatJS (parseValue v)))
       else if v.contains '\x7b' then none
       else some (d, JVal.str (parseValue v))) := by
  unfold scalarWrite
  rw [hld]

/-- A line with no directive has no scalar write. -/
theorem scalarWrite_eqn_none {l : Str} (hld : lineDirective l = none) :
    scalarWrite l = none := by
  unfold scalarWrite
  rw [hld]

/-- A line with a scalar write is a directive line. -/
theorem scalarWrite_directive {l : Str} {p : Str × JVal} (h : scalarWrite l = some p) :
    ∃ d v, lineDirective l = some (d, v) := by
  cases hld : lineDirective l with
  | none => rw [scalarWrite_eqn_none hld] at h; cases h
  | some q =>
    obtain ⟨d, v⟩ := q
    exact ⟨d, v, rfl⟩

/-- A directive line with no scalar write is a section opener. -/
theorem scalarWrite_none {l d v : Str} (hld : lineDirective l = some (d, v))
    (h : scalarWrite l = none) :
    d ≠ S "character" ∧ d ≠ S "archetype" ∧ d ≠ S "element" ∧
    d ≠ S "consciousness_level" ∧ (v.contains '\x7b') = true := by
  rw [scalarWrite_eqn hld] at h
  split_ifs at h with hc ha he hcl hbr <;>
    first
      | exact Option.noConfusion h
      | exact ⟨hc, ha, he, hcl, hbr⟩

/-- Processing a scalar-directive line writes its key and value into the
character object and changes nothing else. -/
theorem processLine_scalarWrite {l k0 : Str} {jv : JVal} (st : PState)
    (h : scalarWrite l = some (k0, jv)) :
    processLine st l = { st with ch := setF st.ch k0 jv } := by
  cases hld : lineDirective l with
  | none => rw [scalarWrite_eqn_none hld] at h; cases h
  | some p =>
    obtain ⟨d, v⟩ := p
    rw [scalarWrite_eqn hld] at h
    rw [processLine_directive st hld]
    unfold applyDirective
    split_ifs at h ⊢ with hc ha he hcl hbr <;>
      first
        | exact Option.noConfusion h
        | (simp only [Option.some.injEq, Prod.mk.injEq] at h
           obtain ⟨rfl, rfl⟩ := h
           rfl)

/-- A lone closing brace outside any section is ignored. -/
theorem processLine_close_none (ch : Model) (acc : List (Str × SVal)) :
    processLine ⟨ch, none, acc⟩ (S "\x7d") = ⟨ch, none, acc⟩ := by
  unfold processLine
  rw [show lineDirective (S "\x7d") = none from by decide, if_pos rfl]

/-- A non-directive, non-brace line with no recognized key/value pair is
ignored. -/
theorem processLine_body_skip {l : Str} (st : PState) (h1 : lineDirective l = none)
    (h2 : l ≠ S "\x7d") (h3 : parseSectionLine l = none) : processLine st l = st := by
  unfold processLine
  rw [h1, if_neg h2, h3]
  obtain ⟨ch, sec, acc⟩ := st
  cases sec <;> rfl

/-- Processing one line preserves the except-at-`k` state relation, and
preserves agreement at `k` when it already holds. -/
theorem processLine_relEx (k l : Str) (s1 s2 : PState) (h : stRelEx k s1 s2) :
    stRelEx k (processLine s1 l) (processLine s2 l) ∧
    (optJvalEquiv (getF s1.ch k) (getF s2.ch k) →
      optJvalEquiv (getF (processLine s1 l).ch k) (getF (processLine s2 l).ch k)) := by
  obtain ⟨hch, hsec, hacc⟩ := h
  cases hsw : scalarWrite l with
  | some p =>
    obtain ⟨k0, jv⟩ := p
    rw [processLine_scalarWrite s1 hsw, processLine_scalarWrite s2 hsw]
    refine ⟨⟨?_, hsec, hacc⟩, ?_⟩
    · intro key hkey
      exact optJvalEquiv_setF k0 (jvalEquiv_refl jv) key (hch key hkey)
    · intro hk
      exact optJvalEquiv_setF k0 (jvalEquiv_refl jv) k hk
  | none =>
    cases hld : lineDirective l with
    | some p =>
      obtain ⟨d, v⟩ := p
      obtain ⟨hd1, hd2, hd3, hd4, hv⟩ := scalarWrite_none hld hsw
      rw [processLine_directive s1 hld, processLine_directive s2 hld,
          applyDirective_section s1 v hd1 hd2 hd3 hd4 hv,
          applyDirective_section s2 v hd1 hd2 hd3 hd4 hv]
      exact ⟨⟨hch, rfl, fun key => rfl⟩, fun hk => hk⟩
    | none =>
      by_cases hbr : l = S "\x7d"
      · subst hbr
        obtain ⟨ch1, sec1, acc1⟩ := s1
        obtain ⟨ch2, sec2, acc2⟩ := s2
        dsimp only at hch hsec hacc ⊢
        subst hsec
        cases sec1 with
        | none =>
          rw [processLine_close_none, processLine_close_none]
          exact ⟨⟨hch, rfl, hacc⟩, fun hk => hk⟩
        | some s =>
          rw [processLine_close, processLine_close]
          refine ⟨⟨?_, rfl, fun key => rfl⟩, ?_⟩
          · intro key hkey
            exact optJvalEquiv_setF s (jvalEquiv_obj hacc) key (hch key hkey)
          · intro hk
            exact optJvalEquiv_setF s (jvalEquiv_obj hacc) k hk
      · cases hps : parseSectionLine l with
        | some p =>
          obtain ⟨k0, sv⟩ := p
          obtain ⟨ch1, sec1, acc1⟩ := s1
          obtain ⟨ch2, sec2, acc2⟩ := s2
          dsimp only at hch hsec hacc ⊢
          subst hsec
          cases sec1 with
          | none =>
            rw [processLine_body_none _ hld hbr rfl, processLine_body_none _ hld hbr rfl]
            exact ⟨⟨hch, rfl, hacc⟩, fun hk => hk⟩
          | some s =>
            rw [processLine_body_some _ _ _ hld hbr hps,
                processLine_body_some _ _ _ hld hbr hps]
            refine ⟨⟨hch, rfl, ?_⟩, fun hk => hk⟩
            intro key
            exact getF_setF_congr k0 sv key (hacc key)
        | none =>
          rw [processLine_body_skip s1 hld hbr hps, processLine_body_skip s2 hld hbr hps]
          exact ⟨⟨hch, hsec, hacc⟩, fun hk => hk⟩

/-- Processing a whole line list preserves the except-at-`k` relation and
agreement at `k`. -/
theorem foldl_relEx (k : Str) : ∀ (ks : List Str) (s1 s2 : PState),
    stRelEx k s1 s2 →
    stRelEx k (ks.foldl processLine s1) (ks.foldl processLine s2) ∧
    (optJvalEquiv (getF s1.ch k) (getF s2.ch k) →
      optJvalEquiv (getF (ks.foldl processLine s1).ch k)
        (getF (ks.foldl processLine s2).ch k)) := by
  intro ks
  induction ks with
  | nil => exact fun s1 s2 h => ⟨h, fun hk => hk⟩
  | cons l ks ih =>
    intro s1 s2 h
    obtain ⟨h1, h2⟩ := processLine_relEx k l s1 s2 h
    obtain ⟨h3, h4⟩ := ih (processLine s1 l) (processLine s2 l) h1
    rw [List.foldl_cons, List.foldl_cons]
    exact ⟨h3, fun hk => h4 (h2 hk)⟩

/-- Unfolding of the accumulator fold on a cons cell. -/
theorem bodyAcc_cons (l : Str) (ls : List Str) (acc : List (Str × SVal)) :
    bodyAcc (l :: ls) acc =
      bodyAcc ls (match parseSectionLine l with
        | some (k, v) => setF acc k v
        | none => acc) := rfl

/-- The accumulator fold preserves pointwise equal reads away from `k`. -/
theorem bodyAcc_getF_ex (ls : List Str) (k : Str) :
    ∀ (a b : List (Str × SVal)), (∀ key : Str, key ≠ k → getF a key = getF b key) →
      ∀ key : Str, key ≠ k → getF (bodyAcc ls a) key = getF (bodyAcc ls b) key := by
  induction ls with
  | nil => exact fun a b h => h
  | cons l ls ih =>
    intro a b h
    rw [bodyAcc_cons, bodyAcc_cons]
    cases hps : parseSectionLine l with
    | none => exact ih a b h
    | some p =>
      obtain ⟨k0, sv⟩ := p
      exact ih (setF a k0 sv) (setF b k0 sv)
        (fun key hk => getF_setF_congr k0 sv key (h key hk))

/-- A run of body-style lines outside any section changes nothing. -/
theorem foldl_body_none (ks : List Str)
    (h : ∀ l ∈ ks, lineDirective l = none ∧ l ≠ S "\x7d") :
    ∀ (ch : Model) (acc : List (Str × SVal)),
      ks.foldl processLine ⟨ch, none, acc⟩ = ⟨ch, none, acc⟩ := by
  induction ks with
  | nil => intro ch acc; rfl
  | cons l ks ih =>
    intro ch acc
    obtain ⟨hld, hne⟩ := h l (List.mem_cons_self l ks)
    rw [List.foldl_cons, processLine_body_none _ hld hne rfl,
        ih (fun x hx => h x (List.mem_cons_of_mem l hx))]

/-- Two occurrences of the same scalar key, separated by arbitrary kept
lines, give lookup-equivalent character objects with and without the earlier
occurrence. -/
theorem foldl_scalar_dup (k : Str) (jv1 jv2 : JVal) {t1 t2 : Str}
    (h1 : scalarWrite t1 = some (k, jv1)) (h2 : scalarWrite t2 = some (k, jv2))
    (mid post : List Str) (st : PState) :
    modelEquiv
      (post.foldl processLine
        (processLine (mid.foldl processLine (processLine st t1)) t2)).ch
      (post.foldl processLine (processLine (mid.foldl processLine st) t2)).ch := by
  rw [processLine_scalarWrite st h1]
  have hrel1 : stRelEx k { st with ch := setF st.ch k jv1 } st := by
    refine ⟨?_, rfl, fun key => rfl⟩
    intro key hkey
    show optJvalEquiv (getF (setF st.ch k jv1) key) (getF st.ch key)
    rw [getF_setF_ne _ _ hkey]
    exact optJvalEquiv_refl _
  obtain ⟨hrelM, hkM⟩ := foldl_relEx k mid _ st hrel1
  rw [processLine_scalarWrite _ h2, processLine_scalarWrite _ h2]
  obtain ⟨hchM, hsecM, haccM⟩ := hrelM
  have hfull : stRelEx k
      { mid.foldl processLine { st with ch := setF st.ch k jv1 } with
        ch := setF (mid.foldl processLine { st with ch := setF st.ch k jv1 }).ch k jv2 }
      { mid.foldl processLine st with
        ch := setF (mid.foldl processLine st).ch k jv2 } := by
    refine ⟨?_, hsecM, haccM⟩
    intro key hkey
    exact optJvalEquiv_setF k (jvalEquiv_refl jv2) key (hchM key hkey)
  have hatk : optJvalEquiv
      (getF (setF (mid.foldl processLine { st with ch := setF st.ch k jv1 }).ch k jv2) k)
      (getF (setF (mid.foldl processLine st).ch k jv2) k) := by
    rw [getF_setF_self, getF_setF_self]
    exact jvalEquiv_refl jv2
  obtain ⟨hrelP, hkP⟩ := foldl_relEx k post _ _ hfull
  intro key
  by_cases hkey : key = k
  · subst hkey
    exact hkP hatk
  · exact hrelP.1 key hkey

/-- Two body lines with the same key inside one section, separated by other
body lines, give lookup-equivalent character objects with and without the
earlier occurrence. -/
theorem foldl_key_dup (k : Str) (sv1 sv2 : SVal) {t1 t2 : Str}
    (hld1 : lineDirective t1 = none) (hne1 : t1 ≠ S "\x7d")
    (hps1 : parseSectionLine t1 = some (k, sv1))
    (hld2 : lineDirective t2 = none) (hne2 : t2 ≠ S "\x7d")
    (hps2 : parseSectionLine t2 = some (k, sv2))
    (mid : List Str) (hmid : ∀ b ∈ mid, lineDirective b = none ∧ b ≠ S "\x7d")
    (post : List Str) (st : PState) :
    modelEquiv
      (post.foldl processLine
        (processLine (mid.foldl processLine (processLine st t1)) t2)).ch
      (post.foldl processLine (processLine (mid.foldl processLine st) t2)).ch := by
  obtain ⟨ch0, sec0, acc0⟩ := st
  cases sec0 with
  | none =>
    rw [processLine_body_none _ hld1 hne1 rfl]
    exact fun key => optJvalEquiv_refl _
  | some s =>
    rw [processLine_body_some ch0 s acc0 hld1 hne1 hps1,
        foldl_body mid hmid, foldl_body mid hmid,
        processLine_body_some _ _ _ hld2 hne2 hps2,
        processLine_body_some _ _ _ hld2 hne2 hps2]
    have hfull : stRelEx k
        ⟨ch0, some s, setF (bodyAcc mid (setF acc0 k sv1)) k sv2⟩
        ⟨ch0, some s, setF (bodyAcc mid acc0) k sv2⟩ := by
      refine ⟨fun key hkey => optJvalEquiv_refl _, rfl, ?_⟩
      intro key
      by_cases hk : key = k
      · subst hk
        rw [getF_setF_self, getF_setF_self]
      · rw [getF_setF_ne _ _ hk, getF_setF_ne _ _ hk]
        exact bodyAcc_getF_ex mid k (setF acc0 k sv1) acc0
          (fun key2 hk2 => getF_setF_ne acc0 sv1 hk2) key hk
    obtain ⟨hrelP, hkP⟩ := foldl_relEx k post _ _ hfull
    intro key
    by_cases hkey : key = k
    · subst hkey
      exact hkP (optJvalEquiv_refl _)
    · exact hrelP.1 key hkey

/-- Two closed sections with the same name, separated by body-style lines,
fold to exactly the same state with and without the earlier section. -/
theorem foldl_section_dup {d v1 v2 o1 o2 : Str}
    (ho1 : lineDirective o1 = some (d, v1)) (ho2 : lineDirective o2 = some (d, v2))
    (hd1 : d ≠ S "character") (hd2 : d ≠ S "archetype") (hd3 : d ≠ S "element")
    (hd4 : d ≠ S "consciousness_level")
    (hv1 : (v1.contains '\x7b') = true) (hv2 : (v2.contains '\x7b') = true)
    (b1 b2 mid : List Str)
    (hb1 : ∀ l ∈ b1, lineDirective l = none ∧ l ≠ S "\x7d")
    (hb2 : ∀ l ∈ b2, lineDirective l = none ∧ l ≠ S "\x7d")
    (hmid : ∀ l ∈ mid, lineDirective l = none ∧ l ≠ S "\x7d")
    (post : List Str) (st : PState) :
    (o1 :: (b1 ++ S "\x7d" :: (mid ++ o2 :: (b2 ++ S "\x7d" :: post)))).foldl processLine st
      = (mid ++ o2 :: (b2 ++ S "\x7d" :: post)).foldl processLine st := by
  rw [foldl_section_block b1 hb1 ho1 hd1 hd2 hd3 hd4 hv1 st,
      List.foldl_append, List.foldl_append,
      foldl_body_none mid hmid,
      foldl_section_block b2 hb2 ho2 hd1 hd2 hd3 hd4 hv2,
      foldl_section_block b2 hb2 ho2 hd1 hd2 hd3 hd4 hv2]
  obtain ⟨ch0, sec0, acc0⟩ := st
  dsimp only
  rw [setF_setF]
  cases sec0 with
  | none => rw [foldl_body_none mid hmid]
  | some t => rw [foldl_body mid hmid]

/-- C10 (amended): when the same scalar directive, the same key inside one
section, or the same closed section occurs more than once, every lookup of
the parsed model is governed by the last occurrence.  Adjacent duplicates of
a scalar directive (part one) or of a section key (part two) are erased
entirely: the document parses exactly as with the last occurrence alone.
Non-adjacent duplicates of a scalar directive (part three, arbitrary lines
between and after) or of a section key (part four, body lines between) yield
a parse that is lookup-equivalent to the parse without the earlier
occurrence: the same success or thrown error, and equivalent values at every
field, comparing section objects property by property.  Two closed sections
with the same name separated by body-style lines (part five) parse exactly
as the last section alone.  Only the entry order of the surviving object can
still differ, which is why parts three and four state lookup equivalence and
not equality: the counterexample below shows the residual order trace. -/
theorem claim_C10 :
    (∀ (pre post : List Str) (l1 l2 k : Str) (jv1 jv2 : JVal),
      scalarWrite (jsTrim l1) = some (k, jv1) →
      scalarWrite (jsTrim l2) = some (k, jv2) →
      parseAPLLines (pre ++ l1 :: l2 :: post) = parseAPLLines (pre ++ l2 :: post)) ∧
    (∀ (pre post : List Str) (l1 l2 k : Str) (sv1 sv2 : SVal),
      lineDirective (jsTrim l1) = none → jsTrim l1 ≠ S "\x7d" →
      keepLine (jsTrim l1) = true →
      parseSectionLine (jsTrim l1) = some (k, sv1) →
      lineDirective (jsTrim l2) = none → jsTrim l2 ≠ S "\x7d" →
      keepLine (jsTrim l2) = true →
      parseSectionLine (jsTrim l2) = some (k, sv2) →
      parseAPLLines (pre ++ l1 :: l2 :: post) = parseAPLLines (pre ++ l2 :: post)) ∧
    (∀ (pre mid post : List Str) (l1 l2 k : Str) (jv1 jv2 : JVal),
      scalarWrite (jsTrim l1) = some (k, jv1) →
      scalarWrite (jsTrim l2) = some (k, jv2) →
      resultEquiv (parseAPLLines (pre ++ l1 :: (mid ++ l2 :: post)))
        (parseAPLLines (pre ++ (mid ++ l2 :: post)))) ∧
    (∀ (pre mid post : List Str) (l1 l2 k : Str) (sv1 sv2 : SVal),
      lineDirective (jsTrim l1) = none → jsTrim l1 ≠ S "\x7d" →
      keepLine (jsTrim l1) = true →
      parseSectionLine (jsTrim l1) = some (k, sv1) →
      lineDirective (jsTrim l2) = none → jsTrim l2 ≠ S "\x7d" →
      keepLine (jsTrim l2) = true →
      parseSectionLine (jsTrim l2) = some (k, sv2) →
      (∀ b ∈ mid, lineDirective (jsTrim b) = none ∧ jsTrim b ≠ S "\x7d") →
      resultEquiv (parseAPLLines (pre ++ l1 :: (mid ++ l2 :: post)))
        (parseAPLLines (pre ++ (mid ++ l2 :: post)))) ∧
    (∀ (pre mid post b1 b2 : List Str) (o1 o2 d v1 v2 : Str),
      lineDirective (jsTrim o1) = some (d, v1) →
      lineDirective (jsTrim o2) = some (d, v2) →
      d ≠ S "character" → d ≠ S "archetype" → d ≠ S "element" →
      d ≠ S "consciousness_level" →
      (v1.contains '\x7b') = true → (v2.contains '\x7b') = true →
      (∀ b ∈ b1 ++ (mid ++ b2), lineDirective (jsTrim b) = none ∧ jsTrim b ≠ S "\x7d") →
      parseAPLLines
          (pre ++ o1 :: (b1 ++ S "\x7d" :: (mid ++ o2 :: (b2 ++ S "\x7d" :: post)))) =
        parseAPLLines (pre ++ (mid ++ o2 :: (b2 ++ S "\x7d" :: post)))) := by
  refine ⟨?_, ?_, ?_, ?_, ?_⟩
  · intro pre post l1 l2 k jv1 jv2 h1 h2
    obtain ⟨d1, v1, hld1⟩ := scalarWrite_directive h1
    obtain ⟨d2, v2, hld2⟩ := scalarWrite_directive h2
    have hk1 : keepLine (jsTrim l1) = true := keepLine_of_directive hld1
    have hk2 : keepLine (jsTrim l2) = true := keepLine_of_directive hld2
    unfold parseAPLLines rawModel runLines
    congr 1
    simp only [keptLines_append, keptLines_cons, hk1, hk2, if_true]
    rw [List.foldl_append, List.foldl_append, List.foldl_cons, List.foldl_cons,
        List.foldl_cons, processLine_scalarWrite _ h1, processLine_scalarWrite _ h2,
        processLine_scalarWrite _ h2]
    dsimp only
    rw [setF_setF]
  · intro pre post l1 l2 k sv1 sv2 hld1 hne1 hkl1 hps1 hld2 hne2 hkl2 hps2
    unfold parseAPLLines rawModel runLines
    congr 1
    simp only [keptLines_append, keptLines_cons, hkl1, hkl2, if_true]
    rw [List.foldl_append, List.foldl_append, List.foldl_cons, List.foldl_cons,
        List.foldl_cons]
    set st0 := (keptLines pre).foldl processLine ⟨[], none, []⟩ with hst0
    obtain ⟨ch0, sec0, acc0⟩ := st0
    cases sec0 with
    | none =>
      rw [processLine_body_none _ hld1 hne1 rfl, processLine_body_none _ hld2 hne2 rfl]
    | some s =>
      rw [processLine_body_some _ _ _ hld1 hne1 hps1,
          processLine_body_some _ _ _ hld2 hne2 hps2,
          processLine_body_some _ _ _ hld2 hne2 hps2, setF_setF]
  · intro pre mid post l1 l2 k jv1 jv2 h1 h2
    obtain ⟨d1, v1, hld1⟩ := scalarWrite_directive h1
    obtain ⟨d2, v2, hld2⟩ := scalarWrite_directive h2
    have hk1 : keepLine (jsTrim l1) = true := keepLine_of_directive hld1
    have hk2 : keepLine (jsTrim l2) = true := keepLine_of_directive hld2
    unfold parseAPLLines rawModel runLines
    simp only [keptLines_append, keptLines_cons, hk1, hk2, if_true]
    simp only [List.foldl_append, List.foldl_cons]
    exact modelEquiv_validate
      (foldl_scalar_dup k jv1 jv2 h1 h2 (keptLines mid) (keptLines post) _)
  · intro pre mid post l1 l2 k sv1 sv2 hld1 hne1 hkl1 hps1 hld2 hne2 hkl2 hps2 hmid
    unfold parseAPLLines rawModel runLines
    simp only [keptLines_append, keptLines_cons, hkl1, hkl2, if_true]
    simp only [List.foldl_append, List.foldl_cons]
    refine modelEquiv_validate
      (foldl_key_dup k sv1 sv2 hld1 hne1 hps1 hld2 hne2 hps2 (keptLines mid) ?_
        (keptLines post) _)
    intro b hbm
    obtain ⟨b0, hb0, rfl⟩ := mem_keptLines hbm
    exact hmid b0 hb0
  · intro pre mid post b1 b2 o1 o2 d v1 v2 ho1 ho2 hd1 hd2 hd3 hd4 hv1 hv2 hb
    have hb1 : ∀ l ∈ keptLines b1, lineDirective l = none ∧ l ≠ S "\x7d" := by
      intro l hl
      obtain ⟨b, hbm, rfl⟩ := mem_keptLines hl
      exact hb b (List.mem_append_left _ hbm)
    have hb2 : ∀ l ∈ keptLines b2, lineDirective l = none ∧ l ≠ S "\x7d" := by
      intro l hl
      obtain ⟨b, hbm, rfl⟩ := mem_keptLines hl
      exact hb b (List.mem_append_right _ (List.mem_append_right _ hbm))
    have hmid : ∀ l ∈ keptLines mid, lineDirective l = none ∧ l ≠ S "\x7d" := by
      intro l hl
      obtain ⟨b, hbm, rfl⟩ := mem_keptLines hl
      exact hb b (List.mem_append_right _ (List.mem_append_left _ hbm))
    have htrcl : jsTrim (S "\x7d") = S "\x7d" := by decide
    have hkcl : keepLine (S "\x7d") = true := by decide
    have hko1 : keepLine (jsTrim o1) = true := keepLine_of_directive ho1
    have hko2 : keepLine (jsTrim o2) = true := keepLine_of_directive ho2
    unfold parseAPLLines rawModel runLines
    congr 1
    simp only [keptLines_append, keptLines_cons, hko1, hko2, htrcl, hkcl, if_true]
    rw [List.foldl_append, List.foldl_append]
    exact congrArg PState.ch
      (foldl_section_dup ho1 ho2 hd1 hd2 hd3 hd4 hv1 hv2 (keptLines b1) (keptLines b2)
        (keptLines mid) hb1 hb2 hmid (keptLines post) _)

set_option maxRecDepth 100000 in
set_option maxHeartbeats 2000000 in
/-- C10 counterexample: a duplicated key inside one section is overwritten
value-for-value but does leave a trace in the model.  With `traits` written
before `voice` and again after it, the committed personality object lists
`traits` first (a JavaScript object keeps the first insertion position of a
property); without the earlier occurrence it lists `voice` first.  Lookups
agree - `traits` maps to the last value in both - yet the models differ as
objects, and the serializer of the code renders them differently, so the
earlier occurrence is observable, contradicting `leaves no trace`. -/
theorem claim_C10_cex :
    parseAPLLines [S "@character \x22A\x22", S "@personality \x7b", S "traits: [x]",
        S "voice: \x22v\x22", S "traits: [y]", S "\x7d"] = some mOrd1 ∧
    parseAPLLines [S "@character \x22A\x22", S "@personality \x7b",
        S "voice: \x22v\x22", S "traits: [y]", S "\x7d"] = some mOrd2 ∧
    sectionEntries mOrd1 (S "personality")
      = [(S "traits", SVal.arr [S "y"]), (S "voice", SVal.str (S "v"))] ∧
    sectionEntries mOrd2 (S "personality")
      = [(S "voice", SVal.str (S "v")), (S "traits", SVal.arr [S "y"])] ∧
    mOrd1 ≠ mOrd2 ∧
    characterToAPL mOrd1 ≠ characterToAPL mOrd2 :=
  ⟨by decide, by decide, by decide, by decide, by decide, by decide⟩

/-- C10 witness: the five parts instantiated on concrete documents: adjacent
`@archetype` duplicates, adjacent duplicate keys in a section, non-adjacent
`@archetype` duplicates separated by `@element`, a duplicated section key
with another key between the occurrences, and two closed `@s` sections
separated by a body-style line. -/
theorem claim_C10_witness :
    (parseAPLLines ([] ++ S "@archetype Creator" :: S "@archetype Sage" :: []) =
      parseAPLLines ([] ++ S "@archetype Sage" :: [])) ∧
    (parseAPLLines ([S "@s \x7b"] ++ S "a: 1" :: S "a: 2" :: [S "\x7d"]) =
      parseAPLLines ([S "@s \x7b"] ++ S "a: 2" :: [S "\x7d"])) ∧
    resultEquiv
      (parseAPLLines
        ([] ++ S "@archetype Creator" :: ([S "@element Fire"] ++ S "@archetype Sage" :: [])))
      (parseAPLLines ([] ++ ([S "@element Fire"] ++ S "@archetype Sage" :: []))) ∧
    resultEquiv
      (parseAPLLines ([S "@s \x7b"] ++ S "a: 1" :: ([S "b: 2"] ++ S "a: 3" :: [S "\x7d"])))
      (parseAPLLines ([S "@s \x7b"] ++ ([S "b: 2"] ++ S "a: 3" :: [S "\x7d"]))) ∧
    (parseAPLLines
        ([] ++ S "@s \x7b" ::
          ([S "a: 1"] ++ S "\x7d" :: ([S "x: 9"] ++ S "@s \x7b" :: ([S "b: 2"] ++ S "\x7d" :: [])))) =
      parseAPLLines ([] ++ ([S "x: 9"] ++ S "@s \x7b" :: ([S "b: 2"] ++ S "\x7d" :: [])))) := by
  refine ⟨?_, ?_, ?_, ?_, ?_⟩
  · exact claim_C10.1 [] [] (S "@archetype Creator") (S "@archetype Sage") (S "archetype")
      (JVal.str (S "Creator")) (JVal.str (S "Sage")) (by decide) (by decide)
  · exact claim_C10.2.1 [S "@s \x7b"] [S "\x7d"] (S "a: 1") (S "a: 2") (S "a")
      (SVal.num 1) (SVal.num 2) (by decide) (by decide) (by decide) (by decide)
      (by decide) (by decide) (by decide) (by decide)
  · exact claim_C10.2.2.1 [] [S "@element Fire"] [] (S "@archetype Creator")
      (S "@archetype Sage") (S "archetype") (JVal.str (S "Creator")) (JVal.str (S "Sage"))
      (by decide) (by decide)
  · refine claim_C10.2.2.2.1 [S "@s \x7b"] [S "b: 2"] [S "\x7d"] (S "a: 1") (S "a: 3")
      (S "a") (SVal.num 1) (SVal.num 3) (by decide) (by decide) (by decide) (by decide)
      (by decide) (by decide) (by decide) (by decide) ?_
    intro b hbm
    simp only [List.mem_singleton] at hbm
    subst hbm
    exact ⟨by decide, by decide⟩
  · refine claim_C10.2.2.2.2 [] [S "x: 9"] [] [S "a: 1"] [S "b: 2"] (S "@s \x7b")
      (S "@s \x7b") (S "s") (S "\x7b") (S "\x7b") (by decide) (by decide) (by decide)
      (by decide) (by decide) (by decide) (by decide) (by decide) ?_
    intro b hbm
    simp only [List.cons_append, List.nil_append, List.mem_cons, List.not_mem_nil,
      or_false] at hbm
    rcases hbm with h | h | h <;> subst h <;> exact ⟨by decide, by decide⟩
